import Mathlib

/-!
# Hand-eye calibration samples: session loop and coordinate pipeline

A shallow embedding of two programs of the repository:

* `HandEyeCalibration.cpp`: the interactive loop that collects
  (robot pose, detection result) pairs and hands them to the solver;
* `UtilizeEyeInHandCalibration.cpp`: composition of the two stored transforms,
  the per-cell transformation of the point cloud and the rescaling of the
  coordinates to 8-bit images.

The Zivid, Eigen and OpenCV libraries are not part of the repository; what the
programs need from them (a detection result that converts to `bool`, the matrix
product, IEEE-754 arithmetic of `float` and `double`, the colour map) is
modelled next to the code that uses it.
-/

namespace HandEyeCalibration

/-- The `enum class CommandType` of the program. -/
inductive CommandType where
  | cmdAddPose
  | cmdCalibrate
  | cmdUnknown
  deriving DecidableEq, Repr

/-- The function `enterCommand`, applied to the line that `getInput` returned. -/
def enterCommand (command : String) : CommandType :=
  if command = "P" ∨ command = "p" then CommandType.cmdAddPose
  else if command = "C" ∨ command = "c" then CommandType.cmdCalibrate
  else CommandType.cmdUnknown

/-- A `Zivid::HandEye::Pose`: the sixteen numbers the operator typed. The loop
never looks inside it. -/
structure Pose where
  elements : List Int
  deriving DecidableEq, Repr

/-- A `Zivid::HandEye::DetectionResult`. The field `valid` is its conversion to
`bool`; the feature points are read by the solver only. -/
structure DetectionResult where
  valid : Bool
  featurePoints : List Int
  deriving DecidableEq, Repr

/-- A `Zivid::HandEye::CalibrationInput`, built as
`CalibrationInput{ robotPose, result }`. -/
structure CalibrationInput where
  robotPose : Pose
  detectionResult : DetectionResult
  deriving DecidableEq, Repr

/-- What the `try` block of the `cmdAddPose` case meets: either one of
`enterRobotPose`, `acquireCheckerboardFrame`, `detectFeaturePoints` throws a
`std::exception`, or the pose is read and the detector returns a result. -/
inductive Capture where
  | threw (what : String)
  | detected (robotPose : Pose) (result : DetectionResult)
  deriving DecidableEq, Repr

/-- One pass of the environment through the loop body: the line read by
`enterCommand`, and what the camera and the detector would do in this pass
(looked at only when the command is `cmdAddPose`). -/
structure Round where
  command : String
  capture : Capture
  deriving DecidableEq, Repr

/-- The local variables of `main` that the loop updates. `currPoseId` is a
`size_t` (64 bits). -/
structure Session where
  currPoseId : Nat
  calibrate : Bool
  input : List CalibrationInput
  deriving DecidableEq, Repr

/-- The values of the locals before the `do` loop. -/
def Session.init : Session := ⟨0, false, []⟩

/-- The body of the `do ... while(!calibrate)` loop: the `switch` over
`enterCommand()`. The `continue` of the `catch` clause jumps to the loop
condition, like the `break` of the other branches. -/
def loopBody (s : Session) (r : Round) : Session :=
  match enterCommand r.command with
  | CommandType.cmdAddPose =>
    match r.capture with
    | Capture.threw _ => s
    | Capture.detected robotPose result =>
      if result.valid then
        { s with
          input := s.input ++ [CalibrationInput.mk robotPose result]
          currPoseId := (s.currPoseId + 1) % 2 ^ 64 }
      else s
  | CommandType.cmdCalibrate => { s with calibrate := true }
  | CommandType.cmdUnknown => s

/-- The `do ... while(!calibrate)` loop over the rounds the environment
supplies. The loop leaves as soon as a body has set `calibrate`; when the rounds
are used up before that, the program is still waiting at the prompt. -/
def doWhile (s : Session) : List Round → Session
  | [] => s
  | r :: rs =>
    let s' := loopBody s r
    if s'.calibrate then s' else doWhile s' rs

/-- What a run of `main` has done once the given rounds are consumed: the state
of the locals, and the argument of every call of `calibrateEyeToHand` (the call
after the loop is reached only when the loop has ended). -/
structure Run where
  session : Session
  solverCalls : List (List CalibrationInput)
  deriving DecidableEq, Repr

/-- The function `main` from the `do` loop on. -/
def main (rounds : List Round) : Run :=
  let s := doWhile Session.init rounds
  { session := s, solverCalls := if s.calibrate then [s.input] else [] }

/-! ### Vocabulary of the statements about the session -/

/-- The round carries a `Calibrate` command. -/
def Round.isCalibrate (r : Round) : Bool :=
  decide (enterCommand r.command = CommandType.cmdCalibrate)

/-- The sample a round contributes: an `AddPose` command whose capture went
through and whose detection succeeded. -/
def Round.sample (r : Round) : Option CalibrationInput :=
  match enterCommand r.command, r.capture with
  | CommandType.cmdAddPose, Capture.detected robotPose result =>
    if result.valid then some (CalibrationInput.mk robotPose result) else none
  | _, _ => none

/-- The round is an `AddPose` command whose detection succeeded. -/
def Round.succeeded (r : Round) : Bool :=
  decide (enterCommand r.command = CommandType.cmdAddPose) &&
    match r.capture with
    | Capture.threw _ => false
    | Capture.detected _ result => result.valid

/-- The rounds read before the first `Calibrate` command. -/
def beforeCalibrate (rounds : List Round) : List Round :=
  rounds.takeWhile (fun r => !r.isCalibrate)

/-- The samples of the successful `AddPose` commands before `Calibrate`, in the
order of the commands. -/
def acceptedSamples (rounds : List Round) : List CalibrationInput :=
  (beforeCalibrate rounds).filterMap Round.sample

/-- The number of `AddPose` commands before `Calibrate` whose detection
succeeded. -/
def successCount (rounds : List Round) : Nat :=
  (beforeCalibrate rounds).countP Round.succeeded

/-- Three `AddPose` commands; the detection of the second one fails. -/
def threePoses : List Round :=
  [ ⟨"p", Capture.detected ⟨[1]⟩ ⟨true, [10]⟩⟩,
    ⟨"p", Capture.detected ⟨[2]⟩ ⟨false, []⟩⟩,
    ⟨"P", Capture.detected ⟨[3]⟩ ⟨true, [30]⟩⟩ ]

/-- Two accepted poses, one rejected pose, an exception and an unknown command,
then `Calibrate`; what follows the `Calibrate` is never read. -/
def fullSession : List Round :=
  [ ⟨"p", Capture.detected ⟨[1]⟩ ⟨true, [10]⟩⟩,
    ⟨"x", Capture.threw ""⟩,
    ⟨"p", Capture.threw "camera"⟩,
    ⟨"P", Capture.detected ⟨[2]⟩ ⟨false, []⟩⟩,
    ⟨"P", Capture.detected ⟨[3]⟩ ⟨true, [30]⟩⟩,
    ⟨"c", Capture.threw ""⟩,
    ⟨"p", Capture.detected ⟨[4]⟩ ⟨true, [40]⟩⟩ ]

end HandEyeCalibration

/-! ## IEEE-754 arithmetic of `float` and `double`

The programs compute with `float` (the coordinates of a point) and `double`
(the transforms). Both are modelled on one value domain: a finite value is an
integer number of units of `2^-1074`, the least positive `double`; every finite
`float` is such a multiple too. Each operation computes the exact result and
rounds it to the nearest value of its format, ties to even, as the default
rounding mode does; an operation on `float` operands is rounded to `float`, and
a product is rounded before it is added. The two zeros are identified (a zero
divisor counts as `+0`, which is what `x - x` yields).
-/

namespace Ieee

/-- The number of units in `1.0`. -/
def unitsPerOne : Nat := 2 ^ 1074

/-- A value of a binary floating-point format: NaN, an infinity, or the finite
value `k * 2^-1074`. -/
inductive Flt where
  | nan
  | ninf
  | pinf
  | fin (k : Int)
  deriving DecidableEq, Repr

/-- A binary format: the number of significand bits, the binary logarithm of the
least positive value in units, and the greatest finite value in units. -/
structure Format where
  prec : Nat
  emin : Nat
  maxFinite : Nat
  deriving DecidableEq, Repr

/-- The format of `float`: 24 bits, least value `2^-149`, greatest value
`(2^24 - 1) * 2^104`. -/
def binary32 : Format := ⟨24, 925, (2 ^ 24 - 1) * 2 ^ 1178⟩

/-- The format of `double`: 53 bits, least value `2^-1074`, greatest value
`(2^53 - 1) * 2^971`. -/
def binary64 : Format := ⟨53, 0, (2 ^ 53 - 1) * 2 ^ 2045⟩

/-- Binary logarithm by repeated shifting, on a budget of steps: 256 bits at a
time, then 16 bits, then one bit. -/
def log2Fuel : Nat → Nat → Nat
  | 0, _ => 0
  | fuel + 1, n =>
    if 2 ^ 256 ≤ n then log2Fuel fuel (n / 2 ^ 256) + 256
    else if 2 ^ 16 ≤ n then log2Fuel fuel (n / 2 ^ 16) + 16
    else if 2 ≤ n then log2Fuel fuel (n / 2) + 1
    else 0

/-- The position of the leading bit of `n` (0 for `n ≤ 1`). -/
def ilog2 (n : Nat) : Nat := log2Fuel n n

/-- The spacing of the values of the format around `n / d` units: the unit in
the last place of the binade of `n / d`, or the least positive value in the
subnormal range. -/
def spacing (f : Format) (n d : Nat) : Nat :=
  2 ^ max (ilog2 (n / d) + 1 - f.prec) f.emin

/-- The magnitude `n / d` units rounded to the nearest multiple of the spacing,
ties to the even multiple. -/
def roundMag (f : Format) (n d : Nat) : Nat :=
  let q := spacing f n d
  let k := n / (d * q)
  let r := n % (d * q)
  let k' := if 2 * r < d * q then k
            else if d * q < 2 * r then k + 1
            else if k % 2 = 0 then k else k + 1
  k' * q

/-- The rational `n / d` units rounded into the format; a result beyond the
greatest finite value is an infinity. -/
def roundTo (f : Format) (n : Int) (d : Nat) : Flt :=
  let m := roundMag f n.natAbs d
  if f.maxFinite < m then (if n < 0 then Flt.ninf else Flt.pinf)
  else Flt.fin (if n < 0 then -(m : Int) else (m : Int))

namespace Flt

/-- The test `std::isnan`. -/
def isnan : Flt → Bool
  | nan => true
  | _ => false

/-- Unary minus. -/
def neg : Flt → Flt
  | nan => nan
  | ninf => pinf
  | pinf => ninf
  | fin k => fin (-k)

/-- Conversion into a format (of a value of a wider format). -/
def round (f : Format) : Flt → Flt
  | fin k => roundTo f k 1
  | a => a

/-- Addition in a format. -/
def add (f : Format) : Flt → Flt → Flt
  | nan, _ => nan
  | _, nan => nan
  | pinf, ninf => nan
  | ninf, pinf => nan
  | pinf, _ => pinf
  | _, pinf => pinf
  | ninf, _ => ninf
  | _, ninf => ninf
  | fin a, fin b => roundTo f (a + b) 1

/-- Subtraction in a format. -/
def sub (f : Format) (a b : Flt) : Flt := add f a (neg b)

/-- The sign of an infinite product or quotient. -/
def signedInf (negative : Bool) : Flt := if negative then ninf else pinf

/-- Multiplication in a format. -/
def mul (f : Format) : Flt → Flt → Flt
  | nan, _ => nan
  | _, nan => nan
  | pinf, pinf => pinf
  | pinf, ninf => ninf
  | ninf, pinf => ninf
  | ninf, ninf => pinf
  | pinf, fin b => if b = 0 then nan else signedInf (decide (b < 0))
  | ninf, fin b => if b = 0 then nan else signedInf (decide (0 < b))
  | fin a, pinf => if a = 0 then nan else signedInf (decide (a < 0))
  | fin a, ninf => if a = 0 then nan else signedInf (decide (0 < a))
  | fin a, fin b => roundTo f (a * b) unitsPerOne

/-- Division in a format. A finite non-zero value over zero is an infinity,
zero over zero is NaN. -/
def div (f : Format) : Flt → Flt → Flt
  | nan, _ => nan
  | _, nan => nan
  | pinf, fin b => signedInf (decide (b < 0))
  | ninf, fin b => signedInf (decide (0 ≤ b))
  | pinf, _ => nan
  | ninf, _ => nan
  | fin _, pinf => fin 0
  | fin _, ninf => fin 0
  | fin a, fin b =>
    if b = 0 then (if a = 0 then nan else signedInf (decide (a < 0)))
    else roundTo f (a * unitsPerOne * b.sign) b.natAbs

/-- The comparison `<`; false as soon as an operand is NaN. -/
def lt : Flt → Flt → Bool
  | nan, _ => false
  | _, nan => false
  | _, ninf => false
  | ninf, _ => true
  | pinf, _ => false
  | fin _, pinf => true
  | fin a, fin b => decide (a < b)

/-- Conversion of a floating-point value to an unsigned integer type with
`2^bits` values: the fractional part is discarded; the behaviour is undefined
(`none`) when the truncated value is not a value of the type, in particular for
NaN and the infinities. -/
def toUnsigned (bits : Nat) : Flt → Option Nat
  | fin k =>
    if -(unitsPerOne : Int) < k ∧ k.tdiv unitsPerOne < 2 ^ bits then
      some (k.tdiv unitsPerOne).toNat
    else none
  | _ => none

/-- The comparison `<=`; false as soon as an operand is NaN. -/
def le : Flt → Flt → Bool
  | nan, _ => false
  | _, nan => false
  | a, b => !(lt b a)

/-- The value is finite. -/
def isFinite : Flt → Bool
  | fin _ => true
  | _ => false

/-- The value belongs to the format: converting it into the format leaves it
unchanged. -/
def IsValueOf (f : Format) (a : Flt) : Prop := round f a = a

instance (f : Format) (a : Flt) : Decidable (IsValueOf f a) := by
  unfold IsValueOf; infer_instance

end Flt

/-- A value of the given format. -/
structure Num (f : Format) where
  val : Flt
  deriving DecidableEq, Repr

/-- The type `float`. -/
abbrev F32 := Num binary32

/-- The type `double`. -/
abbrev F64 := Num binary64

namespace Num

variable {f : Format}

instance : Add (Num f) := ⟨fun a b => ⟨Flt.add f a.val b.val⟩⟩
instance : Sub (Num f) := ⟨fun a b => ⟨Flt.sub f a.val b.val⟩⟩
instance : Mul (Num f) := ⟨fun a b => ⟨Flt.mul f a.val b.val⟩⟩
instance : Div (Num f) := ⟨fun a b => ⟨Flt.div f a.val b.val⟩⟩
instance : Neg (Num f) := ⟨fun a => ⟨Flt.neg a.val⟩⟩

/-- Conversion of an integer to the format. -/
def ofInt (n : Int) : Num f := ⟨roundTo f (n * unitsPerOne) 1⟩

/-- The value `m * 2^e` (`e` may be negative down to `-1074`) converted to the
format; this is how a decimal or hexadecimal constant is given. -/
def ofScaled (m : Int) (e : Int) : Num f :=
  ⟨roundTo f (m * 2 ^ (e + 1074).toNat) 1⟩

instance : Zero (Num f) := ⟨ofInt 0⟩
instance : One (Num f) := ⟨ofInt 1⟩
instance (n : Nat) [n.AtLeastTwo] : OfNat (Num f) n := ⟨ofInt n⟩

/-- The test `std::isnan`. -/
def isnan (a : Num f) : Bool := a.val.isnan

/-- The comparison `a < b`. -/
def lt (a b : Num f) : Bool := Flt.lt a.val b.val

/-- The comparison `a > b`. -/
def gt (a b : Num f) : Bool := Flt.lt b.val a.val

/-- The comparison `a <= b`. -/
def le (a b : Num f) : Bool := Flt.le a.val b.val

/-- The value is one of the format, as every value of a program variable of
that type is. -/
def IsValue (a : Num f) : Prop := Flt.IsValueOf f a.val

instance (a : Num f) : Decidable (IsValue a) := by
  unfold IsValue; infer_instance

/-- The value is a finite value of the format. -/
def IsNumber (a : Num f) : Prop := a.IsValue ∧ a.val.isFinite = true

instance (a : Num f) : Decidable (IsNumber a) := by
  unfold IsNumber; infer_instance

/-- NaN of the format. -/
def nan : Num f := ⟨Flt.nan⟩

end Num

/-- The implicit conversion `float` to `double`, which is exact. -/
def F32.toF64 (a : F32) : F64 := ⟨a.val⟩

/-- The conversion `double` to `float`. -/
def F64.toF32 (a : F64) : F32 := ⟨Flt.round binary32 a.val⟩

/-- The conversion `double` to `size_t`. -/
def F64.toSizeT (a : F64) : Option Nat := Flt.toUnsigned 64 a.val

/-- The conversion `size_t` to `float` of the usual arithmetic conversions. -/
def F32.ofSizeT (n : Nat) : F32 := Num.ofInt (n : Int)

/-- The conversion `static_cast<unsigned char>` of a `float`. -/
def F32.toUChar (a : F32) : Option Nat := Flt.toUnsigned 8 a.val

end Ieee

/-! ## Vectors and matrices of size four

`Eigen::Vector4d` and the 4x4 `Eigen::MatrixXd` values of the program, with the
two products it uses. The definitions are generic in the scalar, as Eigen is:
the program instantiates them with `double`, statements in exact arithmetic
instantiate them with a commutative ring.
-/

namespace Eigen

/-- A vector with the coefficients `(0)` to `(3)`. -/
structure Vector4 (α : Type) where
  x : α
  y : α
  z : α
  w : α
  deriving DecidableEq, Repr

/-- A 4x4 matrix, given by its rows. -/
structure Matrix4 (α : Type) where
  row0 : Vector4 α
  row1 : Vector4 α
  row2 : Vector4 α
  row3 : Vector4 α
  deriving DecidableEq, Repr

variable {α : Type}

/-- The sum of the four coefficient products, taken in index order. -/
def Vector4.dot [Add α] [Mul α] (a b : Vector4 α) : α :=
  a.x * b.x + a.y * b.y + a.z * b.z + a.w * b.w

namespace Matrix4

/-- Column 0. -/
def col0 (m : Matrix4 α) : Vector4 α := ⟨m.row0.x, m.row1.x, m.row2.x, m.row3.x⟩

/-- Column 1. -/
def col1 (m : Matrix4 α) : Vector4 α := ⟨m.row0.y, m.row1.y, m.row2.y, m.row3.y⟩

/-- Column 2. -/
def col2 (m : Matrix4 α) : Vector4 α := ⟨m.row0.z, m.row1.z, m.row2.z, m.row3.z⟩

/-- Column 3. -/
def col3 (m : Matrix4 α) : Vector4 α := ⟨m.row0.w, m.row1.w, m.row2.w, m.row3.w⟩

/-- The product `matrix * vector`. -/
def mulVec [Add α] [Mul α] (m : Matrix4 α) (v : Vector4 α) : Vector4 α :=
  ⟨m.row0.dot v, m.row1.dot v, m.row2.dot v, m.row3.dot v⟩

/-- The product `matrix * matrix`: entry `(i, j)` is row `i` of the left factor
times column `j` of the right factor. -/
def mul [Add α] [Mul α] (a b : Matrix4 α) : Matrix4 α :=
  ⟨⟨a.row0.dot b.col0, a.row0.dot b.col1, a.row0.dot b.col2, a.row0.dot b.col3⟩,
   ⟨a.row1.dot b.col0, a.row1.dot b.col1, a.row1.dot b.col2, a.row1.dot b.col3⟩,
   ⟨a.row2.dot b.col0, a.row2.dot b.col1, a.row2.dot b.col2, a.row2.dot b.col3⟩,
   ⟨a.row3.dot b.col0, a.row3.dot b.col1, a.row3.dot b.col2, a.row3.dot b.col3⟩⟩

end Matrix4

end Eigen

/-! ## Transforms acting on points -/

namespace Transform3D

open Eigen

variable {α : Type}

/-- A point `(x, y, z)`. -/
structure Point3 (α : Type) where
  x : α
  y : α
  z : α
  deriving DecidableEq, Repr

/-- The point in homogeneous form `(x, y, z, 1)`. -/
def homogeneous [One α] (p : Point3 α) : Vector4 α := ⟨p.x, p.y, p.z, 1⟩

/-- The first three components of a 4-vector. -/
def firstThree (v : Vector4 α) : Point3 α := ⟨v.x, v.y, v.z⟩

/-- The operation `compose(A, B)`: the matrix product `A * B`. -/
def compose [Add α] [Mul α] (a b : Matrix4 α) : Matrix4 α := a.mul b

/-- The operation `apply(T, p)`: the first three components of
`T * (x, y, z, 1)`. -/
def apply [Add α] [Mul α] [One α] (t : Matrix4 α) (p : Point3 α) : Point3 α :=
  firstThree (t.mulVec (homogeneous p))

/-- The transform that adds `t` to a point: identity rotation block, last column
`(t.x, t.y, t.z, 1)`. -/
def translation [Zero α] [One α] (t : Point3 α) : Matrix4 α :=
  ⟨⟨1, 0, 0, t.x⟩, ⟨0, 1, 0, t.y⟩, ⟨0, 0, 1, t.z⟩, ⟨0, 0, 0, 1⟩⟩

/-- The bottom row of the matrix is `(0, 0, 0, 1)`. -/
def IsAffine [Zero α] [One α] (t : Matrix4 α) : Prop := t.row3 = ⟨0, 0, 0, 1⟩

instance [Zero α] [One α] [DecidableEq α] (t : Matrix4 α) : Decidable (IsAffine t) := by
  unfold IsAffine; infer_instance

/-- The three coordinates are finite values of `double`. -/
def Point3.IsNumber (p : Point3 Ieee.F64) : Prop :=
  p.x.IsNumber ∧ p.y.IsNumber ∧ p.z.IsNumber

instance (p : Point3 Ieee.F64) : Decidable p.IsNumber := by
  unfold Point3.IsNumber; infer_instance

end Transform3D

/-! ## The program `UtilizeEyeInHandCalibration.cpp` -/

namespace UtilizeEyeInHandCalibration

open Ieee Eigen

/-- How a run of `main` ends: it returns normally, it reports a caught
`std::exception` and returns `EXIT_FAILURE`, or it executes an operation whose
behaviour the language leaves undefined. -/
inductive Outcome (α : Type) where
  | finished (a : α)
  | error (what : String)
  | undefined
  deriving DecidableEq, Repr

/-- The value a run returns normally with, if it does. -/
def Outcome.result? {α : Type} : Outcome α → Option α
  | Outcome.finished a => some a
  | _ => none

/-- A `cv::Mat` of `double` entries. -/
structure CvMat where
  dims : Nat
  rows : Nat
  cols : Nat
  entry : Nat → Nat → F64

/-- An opened `cv::FileStorage`: the matrix stored under each key, if any. -/
structure FileStorage where
  node : String → Option CvMat

/-- The files the program can open, by name. -/
abbrev Files := String → Option FileStorage

/-- The function `cvToEigen`, for a matrix that `readTransform` has checked to be
4x4. -/
def cvToEigen (cvMat : CvMat) : Except String (Matrix4 F64) :=
  if cvMat.dims > 2 then Except.error "Invalid matrix dimensions. Expected 2D."
  else
    let e := cvMat.entry
    Except.ok
      ⟨⟨e 0 0, e 0 1, e 0 2, e 0 3⟩, ⟨e 1 0, e 1 1, e 1 2, e 1 3⟩,
       ⟨e 2 0, e 2 1, e 2 2, e 2 3⟩, ⟨e 3 0, e 3 1, e 3 2, e 3 3⟩⟩

/-- The function `readTransform`. -/
def readTransform (files : Files) (file_name : String) : Except String CvMat :=
  match files file_name with
  | none => Except.error ("Could not open " ++ file_name)
  | some fileStorage =>
    match fileStorage.node "PoseState" with
    | none => Except.error ("PoseState not found in file " ++ file_name)
    | some poseState =>
      if poseState.rows ≠ 4 ∨ poseState.cols ≠ 4 then
        Except.error ("Expected 4x4 matrix in " ++ file_name ++ ", but got "
          ++ toString poseState.cols ++ "x" ++ toString poseState.rows)
      else Except.ok poseState

/-- The `enum class Axis`. -/
inductive Axis where
  | X
  | Y
  | Z
  deriving DecidableEq, Repr

/-- A `Zivid::Point`: three `float` coordinates, the contrast and the colour
channels returned by `red()`, `green()` and `blue()`. -/
structure Point where
  x : F32
  y : F32
  z : F32
  contrast : F32
  red : Nat
  green : Nat
  blue : Nat
  deriving DecidableEq, Repr

/-- The three specialisations of `getValue`. -/
def getValue : Axis → Point → F32
  | Axis.X, p => p.x
  | Axis.Y, p => p.y
  | Axis.Z, p => p.z

/-- The comparator `isLesserOrNan`. -/
def isLesserOrNan (axis : Axis) (a b : Point) : Bool :=
  if (getValue axis a).lt (getValue axis b) then true else (getValue axis a).isnan

/-- The comparator `isGreaterOrNaN`. -/
def isGreaterOrNaN (axis : Axis) (a b : Point) : Bool :=
  if (getValue axis a).gt (getValue axis b) then true else (getValue axis a).isnan

/-- The loop of `std::max_element` from the second element on: `largest` is the
position and value of the current candidate, `i` the position of the next
element. -/
def maxElementFrom {α : Type} (comp : α → α → Bool) :
    Nat × α → Nat → List α → Nat × α
  | largest, _, [] => largest
  | largest, i, a :: rest =>
    if comp largest.2 a then maxElementFrom comp (i, a) (i + 1) rest
    else maxElementFrom comp largest (i + 1) rest

/-- The algorithm `std::max_element(first, last, comp)`: the position of the
returned iterator and the element there; `none` for an empty range, where the
iterator returned is `last`. -/
def maxElement {α : Type} (comp : α → α → Bool) : List α → Option (Nat × α)
  | [] => none
  | a :: rest => some (maxElementFrom comp (0, a) 1 rest)

/-- A `Zivid::PointCloud`: `cell i j` is `pointCloud(i, j)`. -/
structure PointCloud where
  height : Nat
  width : Nat
  cell : Nat → Nat → Point

/-- A matrix or image, by rows. -/
abbrev Grid (α : Type) := List (List α)

/-- The two nested `for` loops over `i < height` and `j < width`, each writing
cell `(i, j)` of a fresh matrix. -/
def forEachCell {α : Type} (pc : PointCloud) (body : Nat → Nat → α) : Grid α :=
  (List.range pc.height).map (fun i => (List.range pc.width).map (fun j => body i j))

/-- The range `dataPtr()` to `dataPtr() + size()`: the points in row-major
order. -/
def PointCloud.data (pc : PointCloud) : List Point :=
  (forEachCell pc pc.cell).flatten

/-- The assignment `transform_base_to_camera = transformBaseToEndEffector *
transformEndEffectorToCamera`. -/
def transform_base_to_camera {α : Type} [Add α] [Mul α]
    (transformBaseToEndEffector transformEndEffectorToCamera : Matrix4 α) : Matrix4 α :=
  transformBaseToEndEffector.mul transformEndEffectorToCamera

/-- The vector `pointInCameraFrame` after its first three coefficients are set
from a point; the fourth is the 1 it was constructed with. -/
def pointInCameraFrame (p : Point) : Vector4 F64 :=
  ⟨p.x.toF64, p.y.toF64, p.z.toF64, 1⟩

/-- What the first pair of loops stores for one cell. -/
structure Stored where
  xe : F32
  ye : F32
  ze : F32
  re : Nat
  ge : Nat
  be : Nat
  contraste : F32
  deriving DecidableEq, Repr

/-- The body of the first pair of loops. The product `pointInBaseFrame` is
computed and not read; the coefficients stored are those of
`pointInCameraFrame`. -/
def storeCell (transform : Matrix4 F64) (p : Point) : Stored :=
  let camera := pointInCameraFrame p
  let _pointInBaseFrame := transform.mulVec camera
  { xe := camera.x.toF32, ye := camera.y.toF32, ze := camera.z.toF32,
    re := p.red, ge := p.green, be := p.blue, contraste := p.contrast }

/-- The six points that `minX`, `maxX`, ... refer to. -/
structure Ranges where
  minX : Point
  maxX : Point
  minY : Point
  maxY : Point
  minZ : Point
  maxZ : Point
  deriving DecidableEq, Repr

/-- The six calls of `std::max_element` over the data of the cloud. -/
def ranges (data : List Point) : Option Ranges :=
  match maxElement (isLesserOrNan Axis.X) data, maxElement (isGreaterOrNaN Axis.X) data,
        maxElement (isLesserOrNan Axis.Y) data, maxElement (isGreaterOrNaN Axis.Y) data,
        maxElement (isLesserOrNan Axis.Z) data, maxElement (isGreaterOrNaN Axis.Z) data with
  | some maxX, some minX, some maxY, some minY, some maxZ, some minZ =>
    some ⟨minX.2, maxX.2, minY.2, maxY.2, minZ.2, maxZ.2⟩
  | _, _, _, _, _, _ => none

/-- The expression `255.0f * (XXX - min) / (max - min)` for a `size_t` value
`XXX` and two `float` bounds. -/
def rescale (value : Nat) (min max : F32) : F32 :=
  255 * (F32.ofSizeT value - min) / (max - min)

/-- The normalisation step: the rescaled value converted by
`static_cast<unsigned char>`; `none` when the conversion is undefined. -/
def normalize (value : Nat) (min max : F32) : Option Nat :=
  (rescale value min max).toUChar

/-- The values written to the images `x`, `y`, `z` for one cell. -/
structure Pixel where
  x : Nat
  y : Nat
  z : Nat
  deriving DecidableEq, Repr

/-- The body of the second pair of loops, for the images `x`, `y` and `z`:
the sentinel for a cell without depth, otherwise the transformed coordinates
converted to `size_t` and rescaled with the ranges of the cloud. The ranges are
`none` when the iterators are the end of an empty range, which cannot be
dereferenced. The result is `none` when the behaviour is undefined. -/
def normalizeCell (transform : Matrix4 F64) (r : Option Ranges) (p : Point) :
    Option Pixel :=
  if p.z.isnan then some ⟨0, 0, 0⟩
  else
    let pointInBaseFrame := transform.mulVec (pointInCameraFrame p)
    match pointInBaseFrame.x.toSizeT, pointInBaseFrame.y.toSizeT,
          pointInBaseFrame.z.toSizeT, r with
    | some XXX, some YYY, some ZZZ, some r =>
      match normalize XXX r.minX.x r.maxX.x, normalize YYY r.minY.y r.maxY.y,
            normalize ZZZ r.minZ.z r.maxZ.z with
      | some x, some y, some z => some ⟨x, y, z⟩
      | _, _, _ => none
    | _, _, _, _ => none

/-- A `cv::Vec3b`. -/
abbrev Vec3b := Nat × Nat × Nat

/-- The colour `rgb.at(i, j)`: blue, green, red. -/
def colorCell (p : Point) : Vec3b := (p.blue, p.green, p.red)

/-- One cell of a pseudo-colour image: the colour map applied to the pixel, then
the third pair of loops, which sets the cells without depth to black. -/
def jetCell (colorMap : Nat → Vec3b) (p : Point) (value : Nat) : Vec3b :=
  if p.z.isnan then (0, 0, 0) else colorMap value

/-- The list of the values when every element is defined, `none` otherwise. -/
def allDefined {α : Type} : List (Option α) → Option (List α)
  | [] => some []
  | none :: _ => none
  | some a :: rest => (allDefined rest).map (fun l => a :: l)

/-- The grid of the values when every cell is defined, `none` otherwise. -/
def Grid.sequence {α : Type} (g : Grid (Option α)) : Option (Grid α) :=
  allDefined (g.map allDefined)

/-- Cell `(i, j)` of a grid. -/
def Grid.cell? {α : Type} (g : Grid α) (i j : Nat) : Option α :=
  g[i]?.bind (fun row => row[j]?)

/-- The matrices and images `main` has built when it returns. -/
structure Images where
  stored : Grid Stored
  rgb : Grid Vec3b
  pixels : Grid Pixel
  xJetColorMap : Grid Vec3b
  yJetColorMap : Grid Vec3b
  zJetColorMap : Grid Vec3b
  deriving DecidableEq, Repr

/-- The second pair of loops alone: the pixels of the images `x`, `y` and `z`,
`none` when the behaviour of some cell is undefined. -/
def normalizeLoops (transform : Matrix4 F64) (pc : PointCloud) : Option (Grid Pixel) :=
  Grid.sequence
    (forEachCell pc (fun i j => normalizeCell transform (ranges pc.data) (pc.cell i j)))

/-- The loops of `main` over the cloud: the first pair of loops, the ranges, the
normalisation loops and the pseudo-colour images. `colorMap` is the table of
`cv::COLORMAP_JET`, applied to each pixel of an image by `cv::applyColorMap`.
The result is `none` when the behaviour of some cell is undefined. -/
def process (colorMap : Nat → Vec3b) (transform : Matrix4 F64) (pc : PointCloud) :
    Option Images :=
  let stored := forEachCell pc (fun i j => storeCell transform (pc.cell i j))
  let rgb := forEachCell pc (fun i j => colorCell (pc.cell i j))
  match normalizeLoops transform pc with
  | none => none
  | some pixels =>
    let jet (channel : Pixel → Nat) : Grid Vec3b :=
      forEachCell pc (fun i j =>
        jetCell colorMap (pc.cell i j) (((pixels.cell? i j).map channel).getD 0))
    some ⟨stored, rgb, pixels, jet Pixel.x, jet Pixel.y, jet Pixel.z⟩

/-- What the library calls inside the `try` block of `main` meet, in the order
of the source: the files read by `readTransform`; the construction of
`Zivid::Application`; the construction of `Zivid::Frame` from `zividgem.zdf`;
the set-up and run of the visualizer; `frame.getPointCloud()`; the three calls
of `cv::applyColorMap`, which apply one colour table; and the window, the wait
for a key and `cv::imwrite`. Each of them either succeeds or throws a
`std::exception` with the given message. The allocations of the matrices and
the output to the console are taken to succeed. -/
structure Environment where
  files : Files
  application : Except String Unit
  frame : Except String Unit
  visualizer : Except String Unit
  pointCloud : Except String PointCloud
  applyColorMap : Except String (Nat → Vec3b)
  display : Except String Unit

/-- What `main` has produced when it returns normally: the vector
`pointInBaseFrame` printed for the camera point `(11, 22, 33)`, and the matrices
and images. -/
structure Result where
  pointInBaseFrame : Vector4 F64
  images : Images
  deriving DecidableEq, Repr

/-- The part of `main` that follows the assignment of
`transform_base_to_camera`: the application, the frame and the visualizer, the
product `transform_base_to_camera * pointInCameraFrame` for the point
`(11, 22, 33, 1)`, the loops over the cloud, the colour maps and the display.
A `std::exception` thrown on the way is caught; an undefined conversion in the
normalisation loops comes before the colour maps. (The vector printed before
its first assignment is left out.) -/
def afterTransforms (env : Environment) (transform : Matrix4 F64) : Outcome Result :=
  match env.application with
  | Except.error what => Outcome.error what
  | Except.ok _ =>
    match env.frame with
    | Except.error what => Outcome.error what
    | Except.ok _ =>
      match env.visualizer with
      | Except.error what => Outcome.error what
      | Except.ok _ =>
        let pointInBaseFrame := transform.mulVec ⟨11, 22, 33, 1⟩
        match env.pointCloud with
        | Except.error what => Outcome.error what
        | Except.ok pc =>
          match normalizeLoops transform pc with
          | none => Outcome.undefined
          | some _ =>
            match env.applyColorMap with
            | Except.error what => Outcome.error what
            | Except.ok colorMap =>
              match process colorMap transform pc with
              | none => Outcome.undefined
              | some images =>
                match env.display with
                | Except.error what => Outcome.error what
                | Except.ok _ => Outcome.finished ⟨pointInBaseFrame, images⟩

/-- The function `main`: the two transforms are read, converted and multiplied,
then the rest of the `try` block runs with the product; a `std::exception` is
caught and reported. -/
def main (env : Environment) : Outcome Result :=
  match readTransform env.files "handEyeTransform.yaml" with
  | Except.error what => Outcome.error what
  | Except.ok eyeInHandTransformation =>
    match readTransform env.files "robotTransform.yaml" with
    | Except.error what => Outcome.error what
    | Except.ok endEffectorPose =>
      match cvToEigen eyeInHandTransformation with
      | Except.error what => Outcome.error what
      | Except.ok transformEndEffectorToCamera =>
        match cvToEigen endEffectorPose with
        | Except.error what => Outcome.error what
        | Except.ok transformBaseToEndEffector =>
          afterTransforms env
            (transform_base_to_camera transformBaseToEndEffector transformEndEffectorToCamera)

end UtilizeEyeInHandCalibration

/-! ## Vocabulary of the statements about the ranges -/

namespace UtilizeEyeInHandCalibration

open Ieee

/-- A comparison of `float` values that is a strict order on the numbers and
false as soon as an operand is NaN, like `<` and `>`. -/
structure StrictUpToNan (rel : F32 → F32 → Bool) : Prop where
  not_nan : ∀ x y, rel x y = true → x.isnan = false ∧ y.isnan = false
  irrefl : ∀ x, rel x x = false
  trans : ∀ x y z, rel x y = true → rel y z = true → rel x z = true
  neg_trans : ∀ x y z, rel x z = true → y.isnan = false → rel x y = true ∨ rel y z = true

/-- What `std::max_element` selects with a comparator "`rel` or NaN" on the
values `key`: the element at the position returned is, when every value is NaN,
the last one; otherwise it is a number that no number of the range exceeds in
the sense of `rel`, and it is the first such element (every number before it is
strictly below it). -/
def Selected {α : Type} (key : α → F32) (rel : F32 → F32 → Bool) (data : List α)
    (c : Nat × α) : Prop :=
  data[c.1]? = some c.2 ∧
  (((∀ q ∈ data, (key q).isnan = true) ∧ c.1 + 1 = data.length) ∨
   ((key c.2).isnan = false ∧
    (∀ q ∈ data, (key q).isnan = false → rel (key c.2) (key q) = false) ∧
    (∀ (j : Nat) (q : α), j < c.1 → data[j]? = some q → (key q).isnan = false →
      rel (key q) (key c.2) = true)))

/-- The point `maxX`, `maxY` or `maxZ` refers to. -/
def Ranges.maxOn : Axis → Ranges → Point
  | Axis.X, r => r.maxX
  | Axis.Y, r => r.maxY
  | Axis.Z, r => r.maxZ

/-- The point `minX`, `minY` or `minZ` refers to. -/
def Ranges.minOn : Axis → Ranges → Point
  | Axis.X, r => r.minX
  | Axis.Y, r => r.minY
  | Axis.Z, r => r.minZ

/-- A cell is valid when its z is not NaN. -/
def validCells (data : List Point) : List Point :=
  data.filter (fun p => !p.z.isnan)

/-- The values on an axis that are numbers. -/
def numbersOn (axis : Axis) (data : List Point) : List F32 :=
  (data.map (getValue axis)).filter (fun v => !v.isnan)

/-- The value `m` is the maximum of the list: it occurs in it and no element is
above it. -/
def IsMaxOf (values : List F32) (m : F32) : Prop :=
  m ∈ values ∧ ∀ v ∈ values, v.le m = true

/-- The value `m` is the minimum of the list. -/
def IsMinOf (values : List F32) (m : F32) : Prop :=
  m ∈ values ∧ ∀ v ∈ values, m.le v = true

/-- The value of `p` on the axis is not NaN and is greater than or equal to every
value of the sequence on that axis that is not NaN. -/
def IsGreatestOn (axis : Axis) (data : List Point) (p : Point) : Prop :=
  (getValue axis p).isnan = false ∧
  ∀ q ∈ data, (getValue axis q).isnan = false → (getValue axis q).le (getValue axis p) = true

/-- The value of `p` on the axis is not NaN and is less than or equal to every
value of the sequence on that axis that is not NaN. -/
def IsLeastOn (axis : Axis) (data : List Point) (p : Point) : Prop :=
  (getValue axis p).isnan = false ∧
  ∀ q ∈ data, (getValue axis q).isnan = false → (getValue axis p).le (getValue axis q) = true

/-- What the claim says of the element `p` at position `i` selected in `data`,
`Extreme` being `IsGreatestOn axis data` or `IsLeastOn axis data`: when some
value on the axis is a number, `p` is the first point of the sequence with the
property `Extreme`; when every value is NaN, `p` is the last point; and the
value of `p` is NaN exactly when every value is. -/
def FirstExtremeOrLast (axis : Axis) (Extreme : Point → Prop) (data : List Point)
    (i : Nat) (p : Point) : Prop :=
  data[i]? = some p ∧
  ((∃ q ∈ data, (getValue axis q).isnan = false) →
    Extreme p ∧ ∀ (j : Nat) (q : Point), j < i → data[j]? = some q → ¬ Extreme q) ∧
  ((∀ q ∈ data, (getValue axis q).isnan = true) → i + 1 = data.length) ∧
  ((getValue axis p).isnan = true ↔ ∀ q ∈ data, (getValue axis q).isnan = true)

instance (values : List F32) (m : F32) : Decidable (IsMaxOf values m) := by
  unfold IsMaxOf; infer_instance

instance (values : List F32) (m : F32) : Decidable (IsMinOf values m) := by
  unfold IsMinOf; infer_instance

end UtilizeEyeInHandCalibration

/-! ## Inputs used in the statements -/

namespace Examples

open Ieee Eigen Transform3D UtilizeEyeInHandCalibration

/-- The block of `handEyeTransform.yaml` in the scenario: camera to end
effector, a shift by 50 along z. -/
def handEye : Matrix4 F64 := translation ⟨0, 0, 50⟩

/-- The block of `robotTransform.yaml` in the scenario: end effector to base, a
shift by 100 along x. -/
def robot : Matrix4 F64 := translation ⟨100, 0, 0⟩

/-- The camera-to-base transform of the scenario. -/
def cameraToBase : Matrix4 F64 := transform_base_to_camera robot handEye

/-- A point with the given integer coordinates, grey colour and no contrast. -/
def pointAt (x y z : Int) : Point := ⟨Num.ofInt x, Num.ofInt y, Num.ofInt z, 0, 128, 128, 128⟩

/-- The identity transform. -/
def identity : Matrix4 F64 := translation ⟨0, 0, 0⟩

/-- A point without depth whose x and y are finite. -/
def noDepth : Point := ⟨Num.ofInt 5, Num.ofInt 7, Num.nan, 0, 128, 128, 128⟩

/-- A cloud of one row: a cell without depth, then the points `(1, 2, 3)` and
`(4, 6, 8)`. -/
def rowCloud : PointCloud :=
  ⟨1, 3, fun _ j => if j = 0 then noDepth else if j = 1 then pointAt 1 2 3 else pointAt 4 6 8⟩

/-- The six points `std::max_element` selects in `rowCloud`. -/
def rowRanges : Ranges :=
  ⟨pointAt 1 2 3, noDepth, pointAt 1 2 3, noDepth, pointAt 1 2 3, pointAt 4 6 8⟩

/-- A point whose three coordinates are NaN, with the given red channel to tell
two such points apart. -/
def nanPoint (red : Nat) : Point := ⟨Num.nan, Num.nan, Num.nan, 0, red, 0, 0⟩

/-- The points `(2, 0, 1)`, `(NaN, NaN, NaN)`, `(7, 0, 1)`, `(7, 0, 5)` and
`(3, NaN, 9)`: the greatest x occurs twice, the least x once, at the start. -/
def fivePoints : List Point :=
  [pointAt 2 0 1, nanPoint 1, pointAt 7 0 1, pointAt 7 0 5,
   ⟨Num.ofInt 3, Num.nan, Num.ofInt 9, 0, 128, 128, 128⟩]

/-- A stand-in for the colour table: the grey of the pixel value plus one, so
that no pixel value is mapped to black. -/
def greyMap (v : Nat) : Vec3b := (v + 1, v + 1, v + 1)

/-- The `float` 0.99212646484375, that is `16255 * 2^-14`. -/
def lowBound : F32 := Num.ofScaled 16255 (-14)

/-- The `float` 515. -/
def highBound : F32 := 515

/-- A cloud of one row with the points `(0, 0, 0)` and `(1, 1, 1)`. -/
def twoPoints : PointCloud :=
  ⟨1, 2, fun _ j => if j = 0 then pointAt 0 0 0 else pointAt 1 1 1⟩

/-- A 4x4 matrix as the `cv::Mat` stored in a file. -/
def block (m : Matrix4 F64) : CvMat :=
  ⟨2, 4, 4, fun i j =>
    let row := match i with
      | 0 => m.row0
      | 1 => m.row1
      | 2 => m.row2
      | _ => m.row3
    match j with
    | 0 => row.x
    | 1 => row.y
    | 2 => row.z
    | _ => row.w⟩

/-- The two files of the scenario. -/
def scenarioFiles : Files := fun name =>
  if name = "handEyeTransform.yaml" then
    some ⟨fun key => if key = "PoseState" then some (block handEye) else none⟩
  else if name = "robotTransform.yaml" then
    some ⟨fun key => if key = "PoseState" then some (block robot) else none⟩
  else none

/-- A run in which the files are those of the scenario, every library call
succeeds and the frame holds the given cloud. -/
def scenarioRun (pc : PointCloud) : Environment :=
  ⟨scenarioFiles, Except.ok (), Except.ok (), Except.ok (), Except.ok pc,
    Except.ok greyMap, Except.ok ()⟩

/-- A run in which both files hold the identity, every library call succeeds
and the frame holds the given cloud. -/
def identityRun (pc : PointCloud) : Environment :=
  ⟨fun name =>
      if name = "handEyeTransform.yaml" ∨ name = "robotTransform.yaml" then
        some ⟨fun key => if key = "PoseState" then some (block identity) else none⟩
      else none,
    Except.ok (), Except.ok (), Except.ok (), Except.ok pc, Except.ok greyMap, Except.ok ()⟩

/-- A cloud with a single valid point: a cell without any coordinate, then the
point `(1, 1, 1)`. -/
def singleValid : PointCloud :=
  ⟨1, 2, fun _ j => if j = 0 then nanPoint 0 else pointAt 1 1 1⟩

/-- A cloud on which the scenario runs to its end: a cell without depth with
x = 200 and y = 10, then the points `(0, 0, 0)` and `(0, 0, 12800)`. -/
def wideCloud : PointCloud :=
  ⟨1, 3, fun _ j =>
    if j = 0 then ⟨Num.ofInt 200, Num.ofInt 10, Num.nan, 0, 128, 128, 128⟩
    else if j = 1 then pointAt 0 0 0 else pointAt 0 0 12800⟩

/-- The `double` value `2^53`. -/
def twoPow53 : F64 := Num.ofInt 9007199254740992

/-- The `double` value `-2^53`. -/
def negTwoPow53 : F64 := Num.ofInt (-9007199254740992)

/-- A transform over the integers that shifts by 1 along x. -/
def shiftX : Matrix4 Int := translation ⟨1, 0, 0⟩

/-- The identity over the integers, except for the entry 2 at the end of the
bottom row. -/
def scaledW : Matrix4 Int := ⟨⟨1, 0, 0, 0⟩, ⟨0, 1, 0, 0⟩, ⟨0, 0, 1, 0⟩, ⟨0, 0, 0, 2⟩⟩

/-- The shift by 1 along x, in `double`. -/
def shiftXDouble : Matrix4 F64 := translation ⟨1, 0, 0⟩

/-- The identity except for the entry 2 at the end of the bottom row, in
`double`. -/
def scaledWDouble : Matrix4 F64 := ⟨⟨1, 0, 0, 0⟩, ⟨0, 1, 0, 0⟩, ⟨0, 0, 1, 0⟩, ⟨0, 0, 0, 2⟩⟩

/-- A matrix over the integers whose bottom row is not `(0, 0, 0, 1)`. -/
def projective : Matrix4 Int := ⟨⟨1, 2, 0, 3⟩, ⟨0, 1, 5, 0⟩, ⟨7, 0, 1, 1⟩, ⟨1, 1, 2, 3⟩⟩

/-- An affine matrix over the integers. -/
def affine : Matrix4 Int := ⟨⟨2, 0, 1, 4⟩, ⟨0, 3, 0, 5⟩, ⟨1, 1, 1, 6⟩, ⟨0, 0, 0, 1⟩⟩

end Examples

/-! ## The calibration session -/

namespace HandEyeCalibration

theorem loopBody_calibrate (s : Session) (r : Round) (hs : s.calibrate = false) :
    (loopBody s r).calibrate = r.isCalibrate := by
  unfold loopBody Round.isCalibrate
  cases h : enterCommand r.command with
  | cmdAddPose =>
    cases hc : r.capture with
    | threw w => simp [hs]
    | detected p d => by_cases hv : d.valid = true <;> simp [hv, hs]
  | cmdCalibrate => simp
  | cmdUnknown => simp [hs]

theorem loopBody_of_not_calibrate (s : Session) (r : Round) (hr : r.isCalibrate = false) :
    (loopBody s r).input = s.input ++ r.sample.toList ∧
    (loopBody s r).currPoseId = (s.currPoseId + r.sample.toList.length) % 2 ^ 64 ∨
    (r.sample = none ∧ loopBody s r = s) := by
  unfold loopBody Round.sample
  unfold Round.isCalibrate at hr
  cases h : enterCommand r.command with
  | cmdAddPose =>
    cases hc : r.capture with
    | threw w => simp
    | detected p d => by_cases hv : d.valid = true <;> simp [hv]
  | cmdCalibrate => simp [h] at hr
  | cmdUnknown => simp

theorem loopBody_of_calibrate (s : Session) (r : Round) (hr : r.isCalibrate = true) :
    loopBody s r = { s with calibrate := true } := by
  unfold Round.isCalibrate at hr
  have h : enterCommand r.command = CommandType.cmdCalibrate := by simpa using hr
  simp [loopBody, h]

theorem acceptedSamples_cons_calibrate (r : Round) (rs : List Round)
    (hr : r.isCalibrate = true) : acceptedSamples (r :: rs) = [] := by
  simp [acceptedSamples, beforeCalibrate, List.takeWhile, hr]

theorem acceptedSamples_cons_other (r : Round) (rs : List Round)
    (hr : r.isCalibrate = false) :
    acceptedSamples (r :: rs) = r.sample.toList ++ acceptedSamples rs := by
  cases h : r.sample <;>
    simp [acceptedSamples, beforeCalibrate, List.takeWhile, hr, List.filterMap_cons, h]

/-- The state the loop reaches from any state in which `calibrate` is still
false: the accepted samples are appended in order, the counter advances by
their number (modulo the width of `size_t`), and `calibrate` is set exactly when
a `Calibrate` command is among the rounds. -/
theorem doWhile_spec (rs : List Round) (s : Session) (hs : s.calibrate = false)
    (hc : s.currPoseId < 2 ^ 64) :
    (doWhile s rs).input = s.input ++ acceptedSamples rs ∧
    (doWhile s rs).currPoseId = (s.currPoseId + (acceptedSamples rs).length) % 2 ^ 64 ∧
    (doWhile s rs).calibrate = rs.any Round.isCalibrate := by
  induction rs generalizing s with
  | nil =>
    have hm := Nat.mod_eq_of_lt hc
    simp [doWhile, acceptedSamples, beforeCalibrate, hs]
    omega
  | cons r rs ih =>
    have hcal := loopBody_calibrate s r hs
    cases hr : r.isCalibrate with
    | true =>
      have hb := loopBody_of_calibrate s r hr
      have hm := Nat.mod_eq_of_lt hc
      simp [doWhile, hb, acceptedSamples_cons_calibrate r rs hr, hr]
      omega
    | false =>
      rw [hr] at hcal
      have hstep : doWhile s (r :: rs) = doWhile (loopBody s r) rs := by
        simp [doWhile, hcal]
      rw [hstep, acceptedSamples_cons_other r rs hr]
      rcases loopBody_of_not_calibrate s r hr with ⟨hi, hp⟩ | ⟨hn, hsame⟩
      · have hlt : (loopBody s r).currPoseId < 2 ^ 64 := by
          rw [hp]; exact Nat.mod_lt _ (by norm_num)
        obtain ⟨h1, h2, h3⟩ := ih (loopBody s r) hcal hlt
        refine ⟨?_, ?_, ?_⟩
        · rw [h1, hi, List.append_assoc]
        · rw [h2, hp, List.length_append, Nat.mod_add_mod, Nat.add_assoc]
        · rw [h3]; simp [hr]
      · rw [hsame, hn]
        obtain ⟨h1, h2, h3⟩ := ih s hs hc
        refine ⟨?_, ?_, ?_⟩
        · simpa using h1
        · simpa using h2
        · rw [h3]; simp [hr]

theorem mem_acceptedSamples_valid (rs : List Round) (c : CalibrationInput)
    (hc : c ∈ acceptedSamples rs) : c.detectionResult.valid = true := by
  unfold acceptedSamples at hc
  rw [List.mem_filterMap] at hc
  obtain ⟨r, _, hr⟩ := hc
  unfold Round.sample at hr
  split at hr
  · split at hr
    · rename_i hv
      simp only [Option.some.injEq] at hr
      rw [← hr]; exact hv
    · simp at hr
  · simp at hr

theorem sample_isSome (r : Round) : r.sample.isSome = r.succeeded := by
  unfold Round.sample Round.succeeded
  cases h : enterCommand r.command <;> cases hc : r.capture <;> simp
  rename_i p d
  by_cases hv : d.valid = true <;> simp [hv]

theorem length_acceptedSamples (rs : List Round) :
    (acceptedSamples rs).length = successCount rs := by
  unfold acceptedSamples successCount
  induction beforeCalibrate rs with
  | nil => simp
  | cons r l ih =>
    have hs := sample_isSome r
    cases h : r.sample with
    | none =>
      rw [h] at hs
      have hf : r.succeeded = false := by simpa using hs.symm
      simp [List.filterMap_cons, List.countP_cons, h, ih, hf]
    | some c =>
      rw [h] at hs
      have ht : r.succeeded = true := by simpa using hs.symm
      simp [List.filterMap_cons, List.countP_cons, h, ih, ht]

/-- C1. In the loop of `main`, after any rounds, the number of stored samples
and the pose-id counter both equal the number of `AddPose` commands read before
`Calibrate` whose detection succeeded (the bound is the range of the `size_t`
counter, which no sample vector can reach); an `AddPose` whose detection fails,
an `AddPose` that raises an exception and an unknown command leave the locals
as they were. -/
theorem samples_and_counter_count_successes (rounds : List Round)
    (h : successCount rounds < 2 ^ 64) :
    (doWhile Session.init rounds).input.length = successCount rounds ∧
    (doWhile Session.init rounds).currPoseId = successCount rounds ∧
    (∀ (s : Session) (command : String) (robotPose : Pose) (result : DetectionResult),
      enterCommand command = CommandType.cmdAddPose → result.valid = false →
      loopBody s ⟨command, Capture.detected robotPose result⟩ = s) ∧
    (∀ (s : Session) (command what : String),
      enterCommand command = CommandType.cmdAddPose →
      loopBody s ⟨command, Capture.threw what⟩ = s) ∧
    (∀ (s : Session) (r : Round),
      enterCommand r.command = CommandType.cmdUnknown → loopBody s r = s) := by
  obtain ⟨h1, h2, _⟩ := doWhile_spec rounds Session.init rfl (by simp [Session.init])
  rw [length_acceptedSamples] at h2
  refine ⟨?_, ?_, ?_, ?_, ?_⟩
  · rw [h1, ← length_acceptedSamples]; simp [Session.init]
  · rw [h2]; simp only [Session.init, Nat.zero_add]; exact Nat.mod_eq_of_lt h
  · intro s command robotPose result hc hv
    simp [loopBody, hc, hv]
  · intro s command what hc
    simp [loopBody, hc]
  · intro s r hc
    simp [loopBody, hc]

/-- Three `AddPose` commands with the detection failing on the second: two
stored samples, counter at 2. -/
theorem three_poses_second_fails :
    successCount threePoses < 2 ^ 64 ∧
    (doWhile Session.init threePoses).input.length = 2 ∧
    (doWhile Session.init threePoses).currPoseId = 2 :=
  have hc : successCount threePoses = 2 := by decide
  have h := samples_and_counter_count_successes threePoses (by decide)
  ⟨by decide, h.1.trans hc, h.2.1.trans hc⟩

/-- C10. A run of `main` calls the solver exactly once, after the loop, as soon
as a `Calibrate` command has been read, and makes no call as long as none has
been read; the argument of the call is the sequence of the samples of the
successful `AddPose` commands read before, in the order of the commands, each
with a valid detection result; when no `AddPose` succeeded before `Calibrate`
the solver is called with the empty sequence. -/
theorem solver_called_once_with_accepted_samples (rounds : List Round) :
    (main rounds).solverCalls =
      (if rounds.any Round.isCalibrate then [acceptedSamples rounds] else []) ∧
    (∀ call ∈ (main rounds).solverCalls, ∀ c ∈ call, c.detectionResult.valid = true) ∧
    (rounds.any Round.isCalibrate = true → successCount rounds = 0 →
      (main rounds).solverCalls = [[]]) := by
  obtain ⟨h1, _, h3⟩ := doWhile_spec rounds Session.init rfl (by simp [Session.init])
  have hmain : (main rounds).solverCalls =
      (if rounds.any Round.isCalibrate then [acceptedSamples rounds] else []) := by
    have h1' : (doWhile Session.init rounds).input = acceptedSamples rounds := by
      rw [h1]; simp [Session.init]
    simp only [main, h3, h1']
  refine ⟨hmain, ?_, ?_⟩
  · intro call hcall c hc
    rw [hmain] at hcall
    split at hcall
    · simp only [List.mem_singleton] at hcall
      rw [hcall] at hc
      exact mem_acceptedSamples_valid rounds c hc
    · simp at hcall
  · intro hany hzero
    rw [hmain, hany]
    have hl : (acceptedSamples rounds).length = 0 := by
      rw [length_acceptedSamples]; exact hzero
    simp [List.length_eq_zero.mp hl]

/-- A session with accepted, rejected and failed poses and an unknown command:
one call of the solver, with the two accepted samples in order; and a session
whose first command is `Calibrate`: one call with no sample. -/
theorem solver_calls_of_sessions :
    (main fullSession).solverCalls =
      [[⟨⟨[1]⟩, ⟨true, [10]⟩⟩, ⟨⟨[3]⟩, ⟨true, [30]⟩⟩]] ∧
    (main [⟨"C", Capture.threw ""⟩]).solverCalls = [[]] :=
  ⟨(solver_called_once_with_accepted_samples fullSession).1.trans (by decide),
   (solver_called_once_with_accepted_samples [⟨"C", Capture.threw ""⟩]).2.2
     (by decide) (by decide)⟩

end HandEyeCalibration

/-! ## Facts about rounding -/

namespace Ieee

theorem two_pow_log2Fuel_le (fuel : Nat) : ∀ n : Nat, 1 ≤ n → 2 ^ log2Fuel fuel n ≤ n := by
  induction fuel with
  | zero => intro n hn; simpa [log2Fuel] using hn
  | succ fuel ih =>
    intro n hn
    have step : ∀ k : Nat, 2 ^ k ≤ n → 2 ^ (log2Fuel fuel (n / 2 ^ k) + k) ≤ n := by
      intro k hk
      have hq : 1 ≤ n / 2 ^ k := (Nat.one_le_div_iff (by positivity)).mpr hk
      calc 2 ^ (log2Fuel fuel (n / 2 ^ k) + k)
          = 2 ^ log2Fuel fuel (n / 2 ^ k) * 2 ^ k := Nat.pow_add _ _ _
        _ ≤ n / 2 ^ k * 2 ^ k := Nat.mul_le_mul_right _ (ih _ hq)
        _ ≤ n := Nat.div_mul_le_self _ _
    unfold log2Fuel
    split_ifs with h1 h2 h3
    · exact step 256 h1
    · exact step 16 h2
    · have := step 1 (by simpa using h3)
      simpa using this
    · simpa using hn

theorem two_pow_ilog2_le (n : Nat) (hn : 1 ≤ n) : 2 ^ ilog2 n ≤ n :=
  two_pow_log2Fuel_le n n hn

theorem spacing_pos (f : Format) (n d : Nat) : 0 < spacing f n d := by
  unfold spacing; positivity

theorem two_pow_emin_dvd_spacing (f : Format) (n d : Nat) : 2 ^ f.emin ∣ spacing f n d := by
  unfold spacing
  exact Nat.pow_dvd_pow 2 (le_max_right _ _)

theorem spacing_le (f : Format) (n : Nat) (hp : 1 ≤ f.prec) (hn : 2 ^ f.emin ≤ n) :
    spacing f n 1 ≤ n := by
  unfold spacing
  rw [Nat.div_one]
  have h1 : 1 ≤ n := le_trans Nat.one_le_two_pow hn
  rcases le_total (ilog2 n + 1 - f.prec) f.emin with h | h
  · rw [max_eq_right h]; exact hn
  · rw [max_eq_left h]
    calc 2 ^ (ilog2 n + 1 - f.prec) ≤ 2 ^ ilog2 n :=
          Nat.pow_le_pow_right (by norm_num) (by omega)
      _ ≤ n := two_pow_ilog2_le n h1

theorem roundMag_zero (f : Format) (d : Nat) (hd : 0 < d) : roundMag f 0 d = 0 := by
  have hq := spacing_pos f 0 d
  have hdq : 0 < d * spacing f 0 d := Nat.mul_pos hd hq
  simp [roundMag, hdq]

theorem roundTo_zero (f : Format) (d : Nat) (hd : 0 < d) : roundTo f 0 d = Flt.fin 0 := by
  simp [roundTo, roundMag_zero f d hd]

theorem two_pow_emin_dvd_roundMag (f : Format) (n d : Nat) : 2 ^ f.emin ∣ roundMag f n d := by
  unfold roundMag
  exact Dvd.dvd.mul_left (two_pow_emin_dvd_spacing f n d) _

theorem roundMag_pos (f : Format) (n : Nat) (hp : 1 ≤ f.prec) (hn : 2 ^ f.emin ≤ n) :
    0 < roundMag f n 1 := by
  have hq := spacing_pos f n 1
  have hle := spacing_le f n hp hn
  have hk : 1 ≤ n / (1 * spacing f n 1) := by
    rw [Nat.one_mul]
    exact (Nat.one_le_div_iff hq).mpr hle
  unfold roundMag
  simp only
  split_ifs <;> apply Nat.mul_pos <;> omega

/-- Rounding sees only the quotient: a common factor of numerator and
denominator can be cancelled. -/
theorem roundMag_mul_right (f : Format) (c m : Nat) (hm : 0 < m) :
    roundMag f (c * m) m = roundMag f c 1 := by
  have hs : spacing f (c * m) m = spacing f c 1 := by
    unfold spacing
    rw [Nat.mul_div_cancel c hm, Nat.div_one]
  have hq := spacing_pos f c 1
  unfold roundMag
  simp only [hs, Nat.one_mul]
  have hk : c * m / (m * spacing f c 1) = c / spacing f c 1 := by
    rw [Nat.mul_comm c m]
    exact Nat.mul_div_mul_left c (spacing f c 1) hm
  have hr : c * m % (m * spacing f c 1) = m * (c % spacing f c 1) := by
    rw [Nat.mul_comm c m]
    exact Nat.mul_mod_mul_left m c (spacing f c 1)
  rw [hk, hr]
  have e1 : (2 * (m * (c % spacing f c 1)) < m * spacing f c 1) ↔
      (2 * (c % spacing f c 1) < spacing f c 1) := by
    rw [show 2 * (m * (c % spacing f c 1)) = m * (2 * (c % spacing f c 1)) by ring]
    exact Nat.mul_lt_mul_left hm
  have e2 : (m * spacing f c 1 < 2 * (m * (c % spacing f c 1))) ↔
      (spacing f c 1 < 2 * (c % spacing f c 1)) := by
    rw [show 2 * (m * (c % spacing f c 1)) = m * (2 * (c % spacing f c 1)) by ring]
    exact Nat.mul_lt_mul_left hm
  simp only [e1, e2]

theorem roundTo_mul_right (f : Format) (c m : Nat) (hm : 0 < m) :
    roundTo f ((c : Int) * (m : Int)) m = roundTo f (c : Int) 1 := by
  have hn : ((c : Int) * (m : Int)).natAbs = c * m := by
    rw [Int.natAbs_mul, Int.natAbs_ofNat, Int.natAbs_ofNat]
  have hc : (c : Int).natAbs = c := Int.natAbs_ofNat c
  have hneg1 : ¬ ((c : Int) * (m : Int) < 0) := by
    have : (0 : Int) ≤ (c : Int) * (m : Int) := by positivity
    omega
  have hneg2 : ¬ ((c : Int) < 0) := by omega
  simp only [roundTo, hn, hc, roundMag_mul_right f c m hm, hneg1, hneg2, if_false]

/-- The result of rounding a positive numerator that is at least the least
positive value of the format: an infinity or a positive finite value. -/
theorem roundTo_pos (f : Format) (n : Int) (hp : 1 ≤ f.prec) (hn : (2 : Int) ^ f.emin ≤ n) :
    roundTo f n 1 = Flt.pinf ∨ ∃ m : Int, 0 < m ∧ roundTo f n 1 = Flt.fin m := by
  have h0 : (0 : Int) < n := lt_of_lt_of_le (by positivity) hn
  have hnat : 2 ^ f.emin ≤ n.natAbs := by
    have : ((2 ^ f.emin : Nat) : Int) ≤ (n.natAbs : Int) := by
      rw [Int.natAbs_of_nonneg h0.le]; exact_mod_cast hn
    exact_mod_cast this
  have hpos := roundMag_pos f n.natAbs hp hnat
  unfold roundTo
  simp only [not_lt.mpr h0.le, if_false]
  split_ifs
  · exact Or.inl rfl
  · exact Or.inr ⟨_, by exact_mod_cast hpos, rfl⟩

/-- A finite value of a format is a whole number of least positive values. -/
theorem dvd_of_isValueOf (f : Format) (a : Int) (h : Flt.IsValueOf f (Flt.fin a)) :
    (2 : Int) ^ f.emin ∣ a := by
  unfold Flt.IsValueOf Flt.round roundTo at h
  simp only at h
  have hd := two_pow_emin_dvd_roundMag f a.natAbs 1
  have hdi : ((2 ^ f.emin : Nat) : Int) ∣ ((roundMag f a.natAbs 1 : Nat) : Int) :=
    Int.natCast_dvd_natCast.mpr hd
  rw [Nat.cast_pow] at hdi
  split_ifs at h with h1 h2 h2
  · simp only [Flt.fin.injEq] at h
    rw [← h]; exact (Int.dvd_neg).mpr hdi
  · simp only [Flt.fin.injEq] at h
    rw [← h]; exact hdi

theorem Num.sub_val {f : Format} (a b : Num f) : (a - b).val = Flt.sub f a.val b.val := rfl

theorem Num.mul_val {f : Format} (a b : Num f) : (a * b).val = Flt.mul f a.val b.val := rfl

theorem Num.div_val {f : Format} (a b : Num f) : (a / b).val = Flt.div f a.val b.val := rfl

theorem F32.ofSizeT_val (n : Nat) :
    (F32.ofSizeT n).val = roundTo binary32 ((n : Int) * (unitsPerOne : Int)) 1 := by
  simp only [F32.ofSizeT, Num.ofInt]

theorem Flt.lt_cases (a b : Flt) (h : Flt.lt a b = true) :
    a ≠ Flt.nan ∧ a ≠ Flt.pinf ∧ b ≠ Flt.nan ∧ b ≠ Flt.ninf := by
  cases a <;> cases b <;> simp_all [Flt.lt]

theorem unitsPerOne_pos : 0 < unitsPerOne := by
  unfold unitsPerOne; positivity

theorem Num.add_val {f : Format} (a b : Num f) : (a + b).val = Flt.add f a.val b.val := rfl

theorem Num.ext_val {f : Format} (a b : Num f) (h : a.val = b.val) : a = b := by
  cases a; cases b; simp_all

end Ieee

/-! ## The result of rounding is a value of the format -/

namespace Ieee

theorem lt_two_pow_log2Fuel (fuel : Nat) :
    ∀ n : Nat, n ≤ fuel → n < 2 ^ (log2Fuel fuel n + 1) := by
  induction fuel with
  | zero => intro n hn; simp [log2Fuel]; omega
  | succ fuel ih =>
    intro n hn
    have step : ∀ k : Nat, 1 ≤ k → 2 ≤ n →
        n < 2 ^ (log2Fuel fuel (n / 2 ^ k) + k + 1) := by
      intro k hk h2
      have h2k : 2 ≤ 2 ^ k := by
        calc 2 = 2 ^ 1 := by norm_num
          _ ≤ 2 ^ k := Nat.pow_le_pow_right (by norm_num) hk
      have hle : n / 2 ^ k ≤ fuel := by
        have : n / 2 ^ k ≤ n / 2 := Nat.div_le_div_left h2k (by norm_num)
        omega
      have h := ih (n / 2 ^ k) hle
      have hpos : 0 < 2 ^ k := by positivity
      have := (Nat.div_lt_iff_lt_mul hpos).mp h
      calc n < 2 ^ (log2Fuel fuel (n / 2 ^ k) + 1) * 2 ^ k := this
        _ = 2 ^ (log2Fuel fuel (n / 2 ^ k) + k + 1) := by
          rw [← Nat.pow_add]; congr 1; omega
    unfold log2Fuel
    split_ifs with h1 h2 h3
    · exact step 256 (by norm_num) (le_trans (by norm_num) h1)
    · exact step 16 (by norm_num) (le_trans (by norm_num) h2)
    · have := step 1 (by norm_num) h3
      simpa using this
    · simp; omega

theorem lt_two_pow_ilog2 (n : Nat) : n < 2 ^ (ilog2 n + 1) :=
  lt_two_pow_log2Fuel n n le_rfl

theorem ilog2_le_of_lt (m e : Nat) (hm : 1 ≤ m) (h : m < 2 ^ (e + 1)) : ilog2 m ≤ e := by
  have h1 := two_pow_ilog2_le m hm
  have h2 : 2 ^ ilog2 m < 2 ^ (e + 1) := lt_of_le_of_lt h1 h
  have := (Nat.pow_lt_pow_iff_right (by norm_num : 1 < 2)).mp h2
  omega

theorem ilog2_le_of_le_two_pow (m j : Nat) (hm : 1 ≤ m) (h : m ≤ 2 ^ j) : ilog2 m ≤ j := by
  have h1 := two_pow_ilog2_le m hm
  exact (Nat.pow_le_pow_iff_right (by norm_num : 1 < 2)).mp (le_trans h1 h)

/-- A multiple of its own spacing is left unchanged by rounding. -/
theorem roundMag_of_spacing_dvd (f : Format) (m : Nat) (h : spacing f m 1 ∣ m) :
    roundMag f m 1 = m := by
  have hq := spacing_pos f m 1
  obtain ⟨c, hc⟩ := h
  unfold roundMag
  simp only [Nat.one_mul]
  have hmod : m % spacing f m 1 = 0 := Nat.mod_eq_zero_of_dvd ⟨c, hc⟩
  have hdiv : m / spacing f m 1 * spacing f m 1 = m := Nat.div_mul_cancel ⟨c, hc⟩
  simp only [hmod, Nat.mul_zero, hq, if_true, hdiv]

/-- The spacing around a rounded magnitude divides it. -/
theorem spacing_dvd_roundMag (f : Format) (hp : 1 ≤ f.prec) (n d : Nat) :
    spacing f (roundMag f n d) 1 ∣ roundMag f n d := by
  -- notation of the proof: `a` is the integer part of `n / d`, `q = 2 ^ s` the
  -- spacing around it and `m = k' * q` the rounded magnitude.
  set a := n / d with ha
  set s := max (ilog2 a + 1 - f.prec) f.emin with hs
  have hq : spacing f n d = 2 ^ s := rfl
  have hk : n / (d * 2 ^ s) = a / 2 ^ s := by
    rw [ha, Nat.div_div_eq_div_mul]
  have ha_lt : a < 2 ^ (ilog2 a + 1) := lt_two_pow_ilog2 a
  have hkq : a / 2 ^ s * 2 ^ s ≤ a := Nat.div_mul_le_self _ _
  -- the rounded magnitude is `k * q` or `(k + 1) * q`
  have hm : roundMag f n d = a / 2 ^ s * 2 ^ s ∨ roundMag f n d = (a / 2 ^ s + 1) * 2 ^ s := by
    unfold roundMag
    simp only [hq, hk]
    split_ifs
    · exact Or.inl rfl
    · exact Or.inr rfl
    · exact Or.inl rfl
    · exact Or.inr rfl
  -- in both cases it is a multiple of `q` that is at most ...
  have hdvd : 2 ^ s ∣ roundMag f n d := by
    rcases hm with h | h <;> rw [h] <;> exact Dvd.intro_left _ rfl
  by_cases hzero : roundMag f n d = 0
  · rw [hzero]; exact dvd_zero _
  have hpos : 1 ≤ roundMag f n d := Nat.one_le_iff_ne_zero.mpr hzero
  have hemin : f.emin ≤ s := le_max_right _ _
  -- it suffices that the exponent of the new spacing is at most `s`, or that the
  -- magnitude is a power of two not below its spacing
  unfold spacing
  rw [Nat.div_one]
  by_cases hse : s ≤ ilog2 a + 1
  · -- the spacing divides `2 ^ (ilog2 a + 1)`
    have hdvd2 : 2 ^ s ∣ 2 ^ (ilog2 a + 1) := Nat.pow_dvd_pow 2 hse
    have hle : roundMag f n d ≤ 2 ^ (ilog2 a + 1) := by
      have hkq' : a / 2 ^ s * 2 ^ s < 2 ^ (ilog2 a + 1) := lt_of_le_of_lt hkq ha_lt
      obtain ⟨c, hc⟩ := hdvd2
      have hcpos : a / 2 ^ s < c := by
        rw [hc, Nat.mul_comm (2 ^ s) c] at hkq'
        exact Nat.lt_of_mul_lt_mul_right hkq'
      rcases hm with h | h
      · rw [h]; exact hkq'.le
      · rw [h, hc, Nat.mul_comm (2 ^ s) c]
        exact Nat.mul_le_mul_right _ hcpos
    rcases Nat.lt_or_eq_of_le hle with hlt | heq
    · have hlog := ilog2_le_of_lt _ _ hpos hlt
      have : max (ilog2 (roundMag f n d) + 1 - f.prec) f.emin ≤ s := by
        apply max_le _ hemin
        calc ilog2 (roundMag f n d) + 1 - f.prec ≤ ilog2 a + 1 - f.prec := by omega
          _ ≤ s := le_max_left _ _
      exact dvd_trans (Nat.pow_dvd_pow 2 this) hdvd
    · have hlog := ilog2_le_of_le_two_pow _ _ hpos heq.le
      have : max (ilog2 (roundMag f n d) + 1 - f.prec) f.emin ≤ ilog2 a + 1 := by
        apply max_le
        · omega
        · exact le_trans hemin hse
      have hd := Nat.pow_dvd_pow 2 this
      rw [← heq] at hd
      exact hd
  · -- below the least positive value: the result is zero or that value
    have hse' : ilog2 a + 1 < s := by omega
    have hs_emin : s = f.emin := by
      rcases le_total (ilog2 a + 1 - f.prec) f.emin with h | h
      · exact max_eq_right h
      · have : s = ilog2 a + 1 - f.prec := max_eq_left h
        omega
    have ha_small : a < 2 ^ s :=
      lt_of_lt_of_le ha_lt (Nat.pow_le_pow_right (by norm_num) hse'.le)
    have hk0 : a / 2 ^ s = 0 := Nat.div_eq_of_lt ha_small
    rcases hm with h | h
    · rw [h, hk0] at hzero; simp at hzero
    · rw [hk0] at h
      simp only [Nat.zero_add, Nat.one_mul] at h
      have hlog := ilog2_le_of_le_two_pow _ _ hpos h.le
      have : max (ilog2 (roundMag f n d) + 1 - f.prec) f.emin ≤ s := by
        apply max_le _ hemin
        omega
      have hd := Nat.pow_dvd_pow 2 this
      rw [← h] at hd
      exact hd

theorem roundMag_idempotent (f : Format) (hp : 1 ≤ f.prec) (n d : Nat) :
    roundMag f (roundMag f n d) 1 = roundMag f n d :=
  roundMag_of_spacing_dvd f _ (spacing_dvd_roundMag f hp n d)

/-- Every result of rounding is a value of the format. -/
theorem isValueOf_roundTo (f : Format) (hp : 1 ≤ f.prec) (n : Int) (d : Nat) :
    Flt.IsValueOf f (roundTo f n d) := by
  unfold Flt.IsValueOf
  by_cases hover : f.maxFinite < roundMag f n.natAbs d
  · unfold roundTo
    simp only [hover, if_true]
    split_ifs <;> rfl
  · have hres : roundTo f n d =
        Flt.fin (if n < 0 then -(roundMag f n.natAbs d : Int) else (roundMag f n.natAbs d : Int)) := by
      unfold roundTo; simp only [hover, if_false]
    rw [hres]
    unfold Flt.round
    by_cases hneg : n < 0
    · simp only [hneg, if_true]
      unfold roundTo
      simp only [Int.natAbs_neg, Int.natAbs_ofNat, roundMag_idempotent f hp, hover, if_false]
      by_cases hz : roundMag f n.natAbs d = 0
      · simp [hz]
      · have : -(roundMag f n.natAbs d : Int) < 0 := by
          have : 0 < roundMag f n.natAbs d := Nat.pos_of_ne_zero hz
          omega
        simp only [this, if_true]
    · simp only [hneg, if_false]
      unfold roundTo
      have : ¬ ((roundMag f n.natAbs d : Int) < 0) := by omega
      simp only [Int.natAbs_ofNat, roundMag_idempotent f hp, hover, if_false, this]

end Ieee

/-! ## Products and sums with 0 and 1 in `double` arithmetic -/

namespace Ieee

theorem roundTo_int_mul_right (f : Format) (k : Int) (m : Nat) (hm : 0 < m) :
    roundTo f (k * (m : Int)) m = roundTo f k 1 := by
  have hn : (k * (m : Int)).natAbs = k.natAbs * m := by
    rw [Int.natAbs_mul, Int.natAbs_ofNat]
  have hsign : (k * (m : Int) < 0) ↔ (k < 0) := by
    have hmpos : (0 : Int) < (m : Int) := by exact_mod_cast hm
    constructor
    · intro h
      by_contra hk
      have : 0 ≤ k * (m : Int) := mul_nonneg (by omega) hmpos.le
      omega
    · intro h
      exact mul_neg_of_neg_of_pos h hmpos
  simp only [roundTo, hn, roundMag_mul_right f k.natAbs m hm, hsign]

theorem F64.val_one : (1 : F64).val = Flt.fin (unitsPerOne : Int) := by decide!

theorem F64.val_zero : (0 : F64).val = Flt.fin 0 := by decide!

theorem F64.isNumber_one : (1 : F64).IsNumber := by decide!

theorem F64.isNumber_zero : (0 : F64).IsNumber := by decide!

theorem F64.one_mul (x : F64) (hx : x.IsValue) : 1 * x = x := by
  apply Num.ext_val
  rw [Num.mul_val, F64.val_one]
  unfold Num.IsValue Flt.IsValueOf at hx
  cases hv : x.val with
  | nan => rfl
  | ninf => simp [Flt.mul, Flt.signedInf, unitsPerOne_pos, (unitsPerOne_pos).ne']
  | pinf => simp [Flt.mul, Flt.signedInf, unitsPerOne_pos, (unitsPerOne_pos).ne']
  | fin k =>
    rw [hv] at hx
    simp only [Flt.mul]
    simp only [Flt.round] at hx
    rw [Int.mul_comm, roundTo_int_mul_right binary64 k unitsPerOne unitsPerOne_pos]
    exact hx

theorem F64.mul_one (x : F64) (hx : x.IsValue) : x * 1 = x := by
  apply Num.ext_val
  rw [Num.mul_val, F64.val_one]
  unfold Num.IsValue Flt.IsValueOf at hx
  cases hv : x.val with
  | nan => rfl
  | ninf => simp [Flt.mul, Flt.signedInf, unitsPerOne_pos, (unitsPerOne_pos).ne']
  | pinf => simp [Flt.mul, Flt.signedInf, unitsPerOne_pos, (unitsPerOne_pos).ne']
  | fin k =>
    rw [hv] at hx
    simp only [Flt.mul]
    simp only [Flt.round] at hx
    rw [roundTo_int_mul_right binary64 k unitsPerOne unitsPerOne_pos]
    exact hx

theorem F64.zero_mul (x : F64) (hx : x.val.isFinite = true) : 0 * x = 0 := by
  apply Num.ext_val
  rw [Num.mul_val, F64.val_zero]
  cases hv : x.val with
  | fin k =>
    simp only [Flt.mul, Int.zero_mul]
    exact roundTo_zero binary64 unitsPerOne unitsPerOne_pos
  | nan => rw [hv] at hx; simp [Flt.isFinite] at hx
  | ninf => rw [hv] at hx; simp [Flt.isFinite] at hx
  | pinf => rw [hv] at hx; simp [Flt.isFinite] at hx

theorem F64.mul_zero (x : F64) (hx : x.val.isFinite = true) : x * 0 = 0 := by
  apply Num.ext_val
  rw [Num.mul_val, F64.val_zero]
  cases hv : x.val with
  | fin k =>
    simp only [Flt.mul, Int.mul_zero]
    exact roundTo_zero binary64 unitsPerOne unitsPerOne_pos
  | nan => rw [hv] at hx; simp [Flt.isFinite] at hx
  | ninf => rw [hv] at hx; simp [Flt.isFinite] at hx
  | pinf => rw [hv] at hx; simp [Flt.isFinite] at hx

theorem F64.add_zero (x : F64) (hx : x.IsValue) : x + 0 = x := by
  apply Num.ext_val
  rw [Num.add_val, F64.val_zero]
  unfold Num.IsValue Flt.IsValueOf at hx
  cases hv : x.val with
  | nan => rfl
  | ninf => rfl
  | pinf => rfl
  | fin k =>
    rw [hv] at hx
    simp only [Flt.round] at hx
    simp only [Flt.add, Int.add_zero]
    exact hx

theorem F64.zero_add (x : F64) (hx : x.IsValue) : 0 + x = x := by
  apply Num.ext_val
  rw [Num.add_val, F64.val_zero]
  unfold Num.IsValue Flt.IsValueOf at hx
  cases hv : x.val with
  | nan => rfl
  | ninf => rfl
  | pinf => rfl
  | fin k =>
    rw [hv] at hx
    simp only [Flt.round] at hx
    simp only [Flt.add, Int.zero_add]
    exact hx

/-- A sum computed in a format is a value of the format. -/
theorem Num.isValue_add {f : Format} (hp : 1 ≤ f.prec) (a b : Num f) : (a + b).IsValue := by
  unfold Num.IsValue
  rw [Num.add_val]
  cases a.val <;> cases b.val <;>
    first
    | exact isValueOf_roundTo f hp _ _
    | rfl

end Ieee

/-! ## Composition and application of transforms -/

namespace Transform3D

open Eigen

/-- In exact arithmetic the product of two matrices acts on a 4-vector as the
right factor followed by the left factor. -/
theorem mulVec_mul {R : Type} [CommRing R] (a b : Matrix4 R) (v : Vector4 R) :
    (a.mul b).mulVec v = a.mulVec (b.mulVec v) := by
  simp only [Matrix4.mul, Matrix4.mulVec, Vector4.dot, Matrix4.col0, Matrix4.col1,
    Matrix4.col2, Matrix4.col3, Vector4.mk.injEq]
  refine ⟨?_, ?_, ?_, ?_⟩ <;> ring

/-- When the bottom row of `b` is `(0, 0, 0, 1)`, the image of a homogeneous
point under `b` is again homogeneous. -/
theorem mulVec_homogeneous {R : Type} [CommRing R] (b : Matrix4 R) (hb : IsAffine b)
    (p : Point3 R) : b.mulVec (homogeneous p) = homogeneous (apply b p) := by
  unfold IsAffine at hb
  simp only [apply, firstThree, homogeneous, Matrix4.mulVec, Vector4.dot, hb,
    Vector4.mk.injEq, true_and]
  ring

/-- In `double` arithmetic the product of the translation by `t2` and the
translation by `t1` is the translation by the rounded sums `t1 + t2`. -/
theorem translation_mul_translation (t1 t2 : Point3 Ieee.F64) (h1 : t1.IsNumber)
    (h2 : t2.IsNumber) :
    (translation t2).mul (translation t1) =
      translation ⟨t1.x + t2.x, t1.y + t2.y, t1.z + t2.z⟩ := by
  obtain ⟨⟨v1x, f1x⟩, ⟨v1y, f1y⟩, ⟨v1z, f1z⟩⟩ := h1
  obtain ⟨⟨v2x, f2x⟩, ⟨v2y, f2y⟩, ⟨v2z, f2z⟩⟩ := h2
  have hv0 := Ieee.F64.isNumber_zero.1
  have hf0 := Ieee.F64.isNumber_zero.2
  have hv1 := Ieee.F64.isNumber_one.1
  simp only [translation, Matrix4.mul, Vector4.dot, Matrix4.col0, Matrix4.col1, Matrix4.col2,
    Matrix4.col3, Ieee.F64.one_mul, Ieee.F64.mul_one, Ieee.F64.zero_mul, Ieee.F64.mul_zero,
    Ieee.F64.add_zero, Ieee.F64.zero_add, hv0, hf0, hv1, v1x, v1y, v1z, v2x, v2y, v2z,
    f1x, f1y, f1z, f2x, f2y, f2z]

/-- In `double` arithmetic a translation by values of the format adds them to the
finite coordinates of a point. -/
theorem apply_translation (t p : Point3 Ieee.F64)
    (ht : t.x.IsValue ∧ t.y.IsValue ∧ t.z.IsValue) (hp : p.IsNumber) :
    apply (translation t) p = ⟨p.x + t.x, p.y + t.y, p.z + t.z⟩ := by
  obtain ⟨vtx, vty, vtz⟩ := ht
  obtain ⟨⟨vpx, fpx⟩, ⟨vpy, fpy⟩, ⟨vpz, fpz⟩⟩ := hp
  have hv0 := Ieee.F64.isNumber_zero.1
  have hf0 := Ieee.F64.isNumber_zero.2
  have hv1 := Ieee.F64.isNumber_one.1
  simp only [apply, firstThree, homogeneous, translation, Matrix4.mulVec, Vector4.dot,
    Ieee.F64.one_mul, Ieee.F64.mul_one, Ieee.F64.zero_mul, Ieee.F64.mul_zero,
    Ieee.F64.add_zero, Ieee.F64.zero_add, hv0, hf0, hv1, vtx, vty, vtz, vpx, vpy, vpz,
    fpx, fpy, fpz]

end Transform3D

namespace UtilizeEyeInHandCalibration

open Ieee Eigen Transform3D Examples

/-- When the two files are read and converted, `main` runs the rest of its `try`
block with the product (end effector to base) times (camera to end effector). -/
theorem main_uses_product (env : Environment) (cvE cvB : CvMat) (toEffector toBase : Matrix4 F64)
    (h1 : readTransform env.files "handEyeTransform.yaml" = Except.ok cvE)
    (h2 : readTransform env.files "robotTransform.yaml" = Except.ok cvB)
    (h3 : cvToEigen cvE = Except.ok toEffector) (h4 : cvToEigen cvB = Except.ok toBase) :
    main env = afterTransforms env (toBase.mul toEffector) := by
  unfold main
  rw [h1]
  simp only
  rw [h2]
  simp only
  rw [h3]
  simp only
  rw [h4]
  rfl

/-- A run that returns normally has printed the product of the transform with
`(11, 22, 33, 1)` and has built its images from the cloud of the frame with that
transform. -/
theorem afterTransforms_finished (env : Environment) (transform : Matrix4 F64)
    (result : Result) (h : afterTransforms env transform = Outcome.finished result) :
    result.pointInBaseFrame = transform.mulVec ⟨11, 22, 33, 1⟩ ∧
    ∃ (colorMap : Nat → Vec3b) (pc : PointCloud),
      env.pointCloud = Except.ok pc ∧ env.applyColorMap = Except.ok colorMap ∧
      process colorMap transform pc = some result.images := by
  unfold afterTransforms at h
  cases ha : env.application with
  | error w => rw [ha] at h; simp at h
  | ok u =>
    rw [ha] at h
    simp only at h
    cases hf : env.frame with
    | error w => rw [hf] at h; simp at h
    | ok u =>
      rw [hf] at h
      simp only at h
      cases hv : env.visualizer with
      | error w => rw [hv] at h; simp at h
      | ok u =>
        rw [hv] at h
        simp only at h
        cases hp : env.pointCloud with
        | error w => rw [hp] at h; simp at h
        | ok pc =>
          rw [hp] at h
          simp only at h
          cases hn : normalizeLoops transform pc with
          | none => rw [hn] at h; simp at h
          | some px =>
            rw [hn] at h
            simp only at h
            cases hc : env.applyColorMap with
            | error w => rw [hc] at h; simp at h
            | ok colorMap =>
              rw [hc] at h
              simp only at h
              cases hpr : process colorMap transform pc with
              | none => rw [hpr] at h; simp at h
              | some images =>
                rw [hpr] at h
                simp only at h
                cases hd : env.display with
                | error w => rw [hd] at h; simp at h
                | ok u =>
                  rw [hd] at h
                  simp only [Outcome.finished.injEq] at h
                  subst h
                  exact ⟨rfl, colorMap, pc, rfl, rfl, hpr⟩

/-- C2 as stated fails in the `double` arithmetic of the program: for the
translations by `t1 = (2^53, 0, 0)` and `t2 = (1, 0, 0)` and the camera point
`p = (-2^53, 0, 0)` the composed transform yields x = 0, because `t1 + t2` is
rounded to `2^53` in the product of the matrices, while `p + t1 + t2` is 1,
in exact arithmetic and also when the sums are taken from left to right in
`double`. -/
theorem translation_law_fails_in_double :
    (⟨twoPow53, 0, 0⟩ : Point3 F64).IsNumber ∧ (⟨1, 0, 0⟩ : Point3 F64).IsNumber ∧
    (⟨negTwoPow53, 0, 0⟩ : Point3 F64).IsNumber ∧
    apply (transform_base_to_camera (translation ⟨1, 0, 0⟩) (translation ⟨twoPow53, 0, 0⟩))
      (⟨negTwoPow53, 0, 0⟩ : Point3 F64) = ⟨0, 0, 0⟩ ∧
    negTwoPow53 + twoPow53 + 1 = (1 : F64) ∧
    (-9007199254740992 : Int) + 9007199254740992 + 1 = 1 ∧
    ¬ (∀ t1 t2 p : Point3 F64, t1.IsNumber → t2.IsNumber → p.IsNumber →
        apply (transform_base_to_camera (translation t2) (translation t1)) p =
          ⟨p.x + t1.x + t2.x, p.y + t1.y + t2.y, p.z + t1.z + t2.z⟩) := by
  have h1 : (⟨twoPow53, 0, 0⟩ : Point3 F64).IsNumber := by decide!
  have h2 : (⟨1, 0, 0⟩ : Point3 F64).IsNumber := by decide!
  have h3 : (⟨negTwoPow53, 0, 0⟩ : Point3 F64).IsNumber := by decide!
  refine ⟨h1, h2, h3, by decide!, by decide!, by decide, ?_⟩
  intro h
  exact absurd (h ⟨twoPow53, 0, 0⟩ ⟨1, 0, 0⟩ ⟨negTwoPow53, 0, 0⟩ h1 h2 h3) (by decide!)

/-- C2, amended. When the two transforms are read, `main` runs with the product
(end effector to base) times (camera to end effector), in that order; a camera
point is mapped by multiplying that product with `(x, y, z, 1)`, as for the point
`(11, 22, 33)` that a run prints and for the cells of the cloud. For two
translations by finite values `t1` (camera to effector) and `t2` (effector to
base) the product maps every finite camera point `p` to `p + (t1 + t2)`, each
of the two sums rounded to `double`; in exact arithmetic the product acts as the
camera-to-effector transform followed by the effector-to-base transform, and
the image of `p` is `p + t1 + t2`. With the two blocks of the scenario the
camera point `(0, 0, 0)` is mapped to `(100, 0, 50)`. -/
theorem camera_to_base_is_ordered_product :
    (∀ (env : Environment) (cvE cvB : CvMat) (toEffector toBase : Matrix4 F64),
      readTransform env.files "handEyeTransform.yaml" = Except.ok cvE →
      readTransform env.files "robotTransform.yaml" = Except.ok cvB →
      cvToEigen cvE = Except.ok toEffector → cvToEigen cvB = Except.ok toBase →
      main env = afterTransforms env (toBase.mul toEffector)) ∧
    (∀ (env : Environment) (transform : Matrix4 F64) (result : Result),
      afterTransforms env transform = Outcome.finished result →
      result.pointInBaseFrame = transform.mulVec ⟨11, 22, 33, 1⟩ ∧
      ∃ (colorMap : Nat → Vec3b) (pc : PointCloud),
        env.pointCloud = Except.ok pc ∧ env.applyColorMap = Except.ok colorMap ∧
        process colorMap transform pc = some result.images) ∧
    (∀ t1 t2 p : Point3 F64, t1.IsNumber → t2.IsNumber → p.IsNumber →
      apply (transform_base_to_camera (translation t2) (translation t1)) p =
        ⟨p.x + (t1.x + t2.x), p.y + (t1.y + t2.y), p.z + (t1.z + t2.z)⟩) ∧
    (∀ (R : Type) [CommRing R] (toBase toEffector : Matrix4 R) (v : Vector4 R),
      transform_base_to_camera toBase toEffector = compose toBase toEffector ∧
      (transform_base_to_camera toBase toEffector).mulVec v =
        toBase.mulVec (toEffector.mulVec v)) ∧
    (∀ (R : Type) [CommRing R] (t1 t2 p : Point3 R),
      apply (transform_base_to_camera (translation t2) (translation t1)) p =
        ⟨p.x + t1.x + t2.x, p.y + t1.y + t2.y, p.z + t1.z + t2.z⟩) ∧
    cameraToBase.mulVec ⟨0, 0, 0, 1⟩ = ⟨100, 0, 50, 1⟩ ∧
    apply cameraToBase ⟨0, 0, 0⟩ = ⟨100, 0, 50⟩ := by
  refine ⟨main_uses_product, afterTransforms_finished, ?_, ?_, ?_, ?_, ?_⟩
  · intro t1 t2 p h1 h2 hp
    unfold transform_base_to_camera
    rw [translation_mul_translation t1 t2 h1 h2]
    exact apply_translation _ p
      ⟨Num.isValue_add (by decide) _ _, Num.isValue_add (by decide) _ _,
        Num.isValue_add (by decide) _ _⟩ hp
  · intro R _ toBase toEffector v
    exact ⟨rfl, mulVec_mul toBase toEffector v⟩
  · intro R _ t1 t2 p
    simp only [apply, firstThree, homogeneous, transform_base_to_camera, translation,
      Matrix4.mul, Matrix4.mulVec, Vector4.dot, Matrix4.col0, Matrix4.col1, Matrix4.col2,
      Matrix4.col3, Point3.mk.injEq]
    refine ⟨?_, ?_, ?_⟩ <;> ring
  · decide!
  · decide!

/-- The scenario as an instance of the amended C2: the run with the two files of
the scenario uses the product of their blocks, prints `(111, 22, 83, 1)` for the
camera point `(11, 22, 33)` and returns normally on a cloud whose ranges are
wide enough; the translations by `(0, 0, 50)` and `(100, 0, 0)` are finite
values of `double`, and their product maps `(0, 0, 0)` to `(100, 0, 50)`. -/
theorem scenario_maps_origin :
    main (scenarioRun wideCloud) = afterTransforms (scenarioRun wideCloud) (robot.mul handEye) ∧
    (main (scenarioRun wideCloud)).result?.map
        (fun r => (r.pointInBaseFrame, r.images.pixels)) =
      some (⟨111, 22, 83, 1⟩, [[⟨0, 0, 0⟩, ⟨127, 0, 0⟩, ⟨127, 0, 255⟩]]) ∧
    (⟨0, 0, 50⟩ : Point3 F64).IsNumber ∧ (⟨100, 0, 0⟩ : Point3 F64).IsNumber ∧
    (⟨0, 0, 0⟩ : Point3 F64).IsNumber ∧
    apply (transform_base_to_camera (translation ⟨100, 0, 0⟩) (translation ⟨0, 0, 50⟩))
      (⟨0, 0, 0⟩ : Point3 F64) = ⟨100, 0, 50⟩ :=
  ⟨camera_to_base_is_ordered_product.1 (scenarioRun wideCloud) (block handEye) (block robot)
      handEye robot rfl rfl rfl rfl,
   by decide!, by decide!, by decide!, by decide!,
   (camera_to_base_is_ordered_product.2.2.1 ⟨0, 0, 50⟩ ⟨100, 0, 0⟩ ⟨0, 0, 0⟩
      (by decide!) (by decide!) (by decide!)).trans (by decide!)⟩

/-- C3, the code at a cell with depth: what the first pair of loops stores does
not depend on the transform; with the camera-to-base transform of the scenario
it stores `(0, 0, 0)` for the camera point `(0, 0, 0)`, the coordinates in the
camera frame, while the transformed point is `(100, 0, 50)`. -/
theorem stored_cell_is_camera_point :
    (∀ (transform other : Matrix4 F64) (p : Point),
      storeCell transform p = storeCell other p) ∧
    (pointAt 0 0 0).z.isnan = false ∧
    ((storeCell cameraToBase (pointAt 0 0 0)).xe,
     (storeCell cameraToBase (pointAt 0 0 0)).ye,
     (storeCell cameraToBase (pointAt 0 0 0)).ze) = (0, 0, 0) ∧
    firstThree (cameraToBase.mulVec (pointInCameraFrame (pointAt 0 0 0))) =
      ⟨100, 0, 50⟩ := by
  refine ⟨fun _ _ _ => rfl, ?_⟩
  decide!

/-- C4 as stated fails: with `B` the identity except for a 2 at the end of its
bottom row and `A` the shift by 1 along x, the composed transform maps the
origin to `(2, 0, 0)` and the two transforms in sequence map it to
`(1, 0, 0)`, over the integers and in the `double` arithmetic of the program. -/
theorem apply_compose_fails_for_general_bottom_row :
    apply (compose shiftX scaledW) ⟨0, 0, 0⟩ = ⟨2, 0, 0⟩ ∧
    apply shiftX (apply scaledW ⟨0, 0, 0⟩) = ⟨1, 0, 0⟩ ∧
    apply (compose shiftXDouble scaledWDouble) ⟨0, 0, 0⟩ = ⟨2, 0, 0⟩ ∧
    apply shiftXDouble (apply scaledWDouble ⟨0, 0, 0⟩) = ⟨1, 0, 0⟩ ∧
    ¬ (∀ (a b : Matrix4 Int) (p : Point3 Int),
        apply (compose a b) p = apply a (apply b p)) := by
  refine ⟨by decide, by decide, by decide!, by decide!, ?_⟩
  intro h
  exact absurd (h shiftX scaledW ⟨0, 0, 0⟩) (by decide)

/-- C4, amended. In exact arithmetic, for every 4x4 matrix `A`, every matrix `B`
whose bottom row is `(0, 0, 0, 1)` and every point `p`,
`apply (compose A B) p = apply A (apply B p)`. -/
theorem apply_compose_of_affine {R : Type} [CommRing R] (a b : Matrix4 R)
    (hb : IsAffine b) (p : Point3 R) :
    apply (compose a b) p = apply a (apply b p) := by
  unfold apply compose
  rw [mulVec_mul, mulVec_homogeneous b hb p]
  rfl

/-- The amended C4 at a left factor with a general bottom row and an affine right
factor. -/
theorem apply_compose_of_affine_example :
    IsAffine affine ∧
    apply (compose projective affine) ⟨1, 2, 3⟩ = apply projective (apply affine ⟨1, 2, 3⟩) :=
  ⟨by decide, apply_compose_of_affine projective affine (by decide) ⟨1, 2, 3⟩⟩

end UtilizeEyeInHandCalibration

/-! ## The images built by the loops -/

namespace UtilizeEyeInHandCalibration

open Ieee Eigen Transform3D Examples

theorem allDefined_eq_some {α : Type} :
    ∀ (l : List (Option α)) (l' : List α), allDefined l = some l' → l = l'.map some := by
  intro l
  induction l with
  | nil => intro l' h; simp [allDefined] at h; simp [← h]
  | cons a rest ih =>
    intro l' h
    cases a with
    | none => simp [allDefined] at h
    | some a =>
      simp only [allDefined, Option.map_eq_some'] at h
      obtain ⟨t, ht, rfl⟩ := h
      rw [ih t ht]; rfl

theorem sequence_eq_some {α : Type} (g : Grid (Option α)) (g' : Grid α)
    (h : Grid.sequence g = some g') : g = g'.map (List.map some) := by
  unfold Grid.sequence at h
  have h1 := allDefined_eq_some _ _ h
  apply List.ext_getElem?
  intro i
  have h2 := congrArg (fun l => l[i]?) h1
  simp only [List.getElem?_map] at h2 ⊢
  cases hg : g[i]? with
  | none =>
    rw [hg] at h2
    cases hg' : g'[i]? with
    | none => rfl
    | some r => rw [hg'] at h2; simp at h2
  | some row =>
    rw [hg] at h2
    cases hg' : g'[i]? with
    | none => rw [hg'] at h2; simp at h2
    | some r =>
      rw [hg'] at h2
      simp only [Option.map_some', Option.some.injEq] at h2 ⊢
      exact allDefined_eq_some _ _ h2

theorem cell?_forEachCell {α : Type} (pc : PointCloud) (body : Nat → Nat → α) (i j : Nat)
    (hi : i < pc.height) (hj : j < pc.width) :
    Grid.cell? (forEachCell pc body) i j = some (body i j) := by
  simp [Grid.cell?, forEachCell, List.getElem?_map, List.getElem?_range hi,
    List.getElem?_range hj]

theorem cell?_of_sequence {α : Type} (g : Grid (Option α)) (g' : Grid α) (i j : Nat)
    (a : Option α) (h : Grid.sequence g = some g') (hg : Grid.cell? g i j = some a) :
    Grid.cell? g' i j = a := by
  have hs := sequence_eq_some g g' h
  subst hs
  unfold Grid.cell? at hg ⊢
  simp only [List.getElem?_map] at hg
  cases hrow : g'[i]? with
  | none => rw [hrow] at hg; simp at hg
  | some row =>
    rw [hrow] at hg
    simp only [Option.map_some', Option.some_bind, List.getElem?_map] at hg ⊢
    cases hc : row[j]? with
    | none => rw [hc] at hg; simp at hg
    | some c => rw [hc] at hg; simpa using hg

/-- C5. For a cell whose z is NaN, whatever the transform, the ranges, the colour
table and the cell's own x and y are: the body of the normalisation loop yields
the pixel `(0, 0, 0)` without evaluating the rescaling (it is defined even where
the rescaling is not), the pseudo-colour of the cell is black, and in every
result of the processing the images `x`, `y`, `z` hold 0 and the three
pseudo-colour images hold black at that cell. -/
theorem nan_depth_cell_is_sentinel_and_black (colorMap : Nat → Vec3b)
    (transform : Matrix4 F64) (pc : PointCloud) (i j : Nat)
    (hi : i < pc.height) (hj : j < pc.width) (hz : (pc.cell i j).z.isnan = true) :
    (∀ r : Option Ranges, normalizeCell transform r (pc.cell i j) = some ⟨0, 0, 0⟩) ∧
    (∀ value : Nat, jetCell colorMap (pc.cell i j) value = (0, 0, 0)) ∧
    (∀ images : Images, process colorMap transform pc = some images →
      images.pixels.cell? i j = some ⟨0, 0, 0⟩ ∧
      images.xJetColorMap.cell? i j = some (0, 0, 0) ∧
      images.yJetColorMap.cell? i j = some (0, 0, 0) ∧
      images.zJetColorMap.cell? i j = some (0, 0, 0)) := by
  have hcell : ∀ r : Option Ranges, normalizeCell transform r (pc.cell i j) = some ⟨0, 0, 0⟩ := by
    intro r; simp [normalizeCell, hz]
  have hjet : ∀ value : Nat, jetCell colorMap (pc.cell i j) value = (0, 0, 0) := by
    intro value; simp [jetCell, hz]
  refine ⟨hcell, hjet, ?_⟩
  intro images himg
  unfold process normalizeLoops at himg
  simp only at himg
  split at himg
  · simp at himg
  · rename_i pixels hseq
    simp only [Option.some.injEq] at himg
    subst himg
    refine ⟨?_, ?_, ?_, ?_⟩
    · have := cell?_of_sequence _ pixels i j _ hseq (cell?_forEachCell pc _ i j hi hj)
      rw [this]; exact hcell _
    · simp only [cell?_forEachCell pc _ i j hi hj, hjet]
    · simp only [cell?_forEachCell pc _ i j hi hj, hjet]
    · simp only [cell?_forEachCell pc _ i j hi hj, hjet]

/-- C5 on a cloud whose first cell has no depth but finite x and y: the
processing is defined and the first cell of each image holds the sentinel. -/
theorem nan_depth_cell_of_row_cloud :
    (rowCloud.cell 0 0).z.isnan = true ∧
    (process greyMap identity rowCloud).isSome = true ∧
    ((process greyMap identity rowCloud).bind (fun im => im.pixels.cell? 0 0)) =
      some ⟨0, 0, 0⟩ ∧
    ((process greyMap identity rowCloud).bind (fun im => im.zJetColorMap.cell? 0 0)) =
      some (0, 0, 0) ∧
    ((process greyMap identity rowCloud).bind (fun im => im.pixels.cell? 0 2)) =
      some ⟨191, 204, 255⟩ := by
  have h := nan_depth_cell_is_sentinel_and_black greyMap identity rowCloud 0 0
    (by decide) (by decide) (by decide)
  have hsome : (process greyMap identity rowCloud).isSome = true := by decide!
  obtain ⟨im, him⟩ := Option.isSome_iff_exists.mp hsome
  have h3 := h.2.2 im him
  refine ⟨by decide, hsome, ?_, ?_, by decide!⟩
  · rw [him]; exact h3.1
  · rw [him]; exact h3.2.2.2

end UtilizeEyeInHandCalibration

/-! ## The ranges found by `std::max_element` -/

namespace Ieee

theorem Flt.lt_not_nan (a b : Flt) (h : Flt.lt a b = true) :
    a.isnan = false ∧ b.isnan = false := by
  cases a <;> cases b <;> simp_all [Flt.lt, Flt.isnan]

theorem Flt.lt_irrefl (a : Flt) : Flt.lt a a = false := by
  cases a <;> simp [Flt.lt]

theorem Flt.lt_trans (a b c : Flt) (h1 : Flt.lt a b = true) (h2 : Flt.lt b c = true) :
    Flt.lt a c = true := by
  cases a <;> cases b <;> cases c <;> simp_all [Flt.lt]
  omega

theorem Flt.lt_neg_trans (a b c : Flt) (h1 : Flt.lt a c = true) (hb : b.isnan = false) :
    Flt.lt a b = true ∨ Flt.lt b c = true := by
  cases a <;> cases b <;> cases c <;> simp_all [Flt.lt, Flt.isnan]
  omega

theorem Flt.le_of_not_lt (a b : Flt) (ha : a.isnan = false) (hb : b.isnan = false)
    (h : Flt.lt b a = false) : Flt.le a b = true := by
  cases a <;> cases b <;> simp_all [Flt.lt, Flt.le, Flt.isnan]

end Ieee

namespace UtilizeEyeInHandCalibration

open Ieee Eigen Transform3D Examples

theorem strictUpToNan_lt : StrictUpToNan (fun a b : F32 => a.lt b) where
  not_nan := fun x y h => Flt.lt_not_nan x.val y.val h
  irrefl := fun x => Flt.lt_irrefl x.val
  trans := fun x y z h1 h2 => Flt.lt_trans x.val y.val z.val h1 h2
  neg_trans := fun x y z h1 hy => Flt.lt_neg_trans x.val y.val z.val h1 hy

theorem strictUpToNan_gt : StrictUpToNan (fun a b : F32 => a.gt b) where
  not_nan := fun x y h => (Flt.lt_not_nan y.val x.val h).symm
  irrefl := fun x => Flt.lt_irrefl x.val
  trans := fun x y z h1 h2 => Flt.lt_trans z.val y.val x.val h2 h1
  neg_trans := fun x y z h1 hy => (Flt.lt_neg_trans z.val y.val x.val h1 hy).symm

/-- One step of the loop of `std::max_element` keeps the selection property. -/
theorem selected_step {α : Type} (key : α → F32) (rel : F32 → F32 → Bool)
    (hrel : StrictUpToNan rel) (comp : α → α → Bool)
    (hcomp : ∀ a b, comp a b = (rel (key a) (key b) || (key a).isnan))
    (pre : List α) (c : Nat × α) (a : α) (h : Selected key rel pre c) :
    Selected key rel (pre ++ [a]) (if comp c.2 a then (pre.length, a) else c) := by
  obtain ⟨hget, hcase⟩ := h
  have hlt : c.1 < pre.length := by
    by_contra hge
    rw [List.getElem?_eq_none (by omega)] at hget
    exact absurd hget (by simp)
  rw [hcomp]
  rcases hcase with ⟨hall, hlast⟩ | ⟨hnum, hmax, hfirst⟩
  · -- every value so far is NaN: the candidate is replaced
    have hcn : (key c.2).isnan = true := hall c.2 (List.getElem?_mem hget)
    simp only [hcn, Bool.or_true, if_true]
    refine ⟨by simp, ?_⟩
    by_cases hat : (key a).isnan = true
    · left
      refine ⟨?_, by simp⟩
      intro q hq
      rcases List.mem_append.mp hq with hq | hq
      · exact hall q hq
      · simp only [List.mem_singleton] at hq; rw [hq]; exact hat
    · have ha : (key a).isnan = false := by simpa using hat
      right
      refine ⟨ha, ?_, ?_⟩
      · intro q hq hqn
        rcases List.mem_append.mp hq with hq | hq
        · rw [hall q hq] at hqn; exact absurd hqn (by simp)
        · simp only [List.mem_singleton] at hq; rw [hq]; exact hrel.irrefl _
      · intro j q hj hjq hqn
        simp only at hj
        rw [List.getElem?_append_left hj] at hjq
        rw [hall q (List.getElem?_mem hjq)] at hqn
        exact absurd hqn (by simp)
  · -- the candidate is a number
    simp only [hnum, Bool.or_false]
    cases hr : rel (key c.2) (key a) with
    | true =>
      simp only [if_true]
      have han : (key a).isnan = false := (hrel.not_nan _ _ hr).2
      refine ⟨by simp, Or.inr ⟨han, ?_, ?_⟩⟩
      · intro q hq hqn
        rcases List.mem_append.mp hq with hq | hq
        · cases hx : rel (key a) (key q) with
          | false => rfl
          | true =>
            have := hrel.trans _ _ _ hr hx
            rw [hmax q hq hqn] at this
            exact absurd this (by simp)
        · simp only [List.mem_singleton] at hq; rw [hq]; exact hrel.irrefl _
      · intro j q hj hjq hqn
        simp only at hj
        rw [List.getElem?_append_left hj] at hjq
        have hq := List.getElem?_mem hjq
        rcases hrel.neg_trans _ (key q) _ hr hqn with h1 | h1
        · rw [hmax q hq hqn] at h1; exact absurd h1 (by simp)
        · exact h1
    | false =>
      simp only [Bool.false_eq_true, if_false]
      refine ⟨by rw [List.getElem?_append_left hlt]; exact hget, Or.inr ⟨hnum, ?_, ?_⟩⟩
      · intro q hq hqn
        rcases List.mem_append.mp hq with hq | hq
        · exact hmax q hq hqn
        · simp only [List.mem_singleton] at hq; rw [hq]; exact hr
      · intro j q hj hjq hqn
        rw [List.getElem?_append_left (lt_trans hj hlt)] at hjq
        exact hfirst j q hj hjq hqn

theorem selected_maxElementFrom {α : Type} (key : α → F32) (rel : F32 → F32 → Bool)
    (hrel : StrictUpToNan rel) (comp : α → α → Bool)
    (hcomp : ∀ a b, comp a b = (rel (key a) (key b) || (key a).isnan)) :
    ∀ (rest pre : List α) (c : Nat × α), Selected key rel pre c →
      Selected key rel (pre ++ rest) (maxElementFrom comp c pre.length rest) := by
  intro rest
  induction rest with
  | nil => intro pre c h; simpa [maxElementFrom] using h
  | cons a rest ih =>
    intro pre c h
    have hstep := selected_step key rel hrel comp hcomp pre c a h
    have := ih (pre ++ [a]) _ hstep
    rw [List.append_assoc, List.singleton_append, List.length_append, List.length_singleton]
      at this
    unfold maxElementFrom
    by_cases hc : comp c.2 a = true
    · simp only [hc, if_true] at this ⊢; exact this
    · simp only [hc, if_false] at this ⊢; exact this

/-- The selection made by `std::max_element` with a comparator "`rel` or NaN". -/
theorem selected_maxElement {α : Type} (key : α → F32) (rel : F32 → F32 → Bool)
    (hrel : StrictUpToNan rel) (comp : α → α → Bool)
    (hcomp : ∀ a b, comp a b = (rel (key a) (key b) || (key a).isnan))
    (data : List α) (c : Nat × α) (h : maxElement comp data = some c) :
    Selected key rel data c := by
  cases data with
  | nil => simp [maxElement] at h
  | cons a rest =>
    simp only [maxElement, Option.some.injEq] at h
    have h0 : Selected key rel [a] (0, a) := by
      refine ⟨by simp, ?_⟩
      by_cases hat : (key a).isnan = true
      · left; exact ⟨by simpa using hat, by simp⟩
      · have ha : (key a).isnan = false := by simpa using hat
        right
        refine ⟨ha, ?_, ?_⟩
        · intro q hq _; simp only [List.mem_singleton] at hq; rw [hq]; exact hrel.irrefl _
        · intro j q hj; simp at hj
    have := selected_maxElementFrom key rel hrel comp hcomp rest [a] (0, a) h0
    simp only [List.singleton_append, List.length_singleton] at this
    rw [h] at this
    exact this

theorem isLesserOrNan_eq (axis : Axis) (a b : Point) :
    isLesserOrNan axis a b =
      ((getValue axis a).lt (getValue axis b) || (getValue axis a).isnan) := by
  unfold isLesserOrNan
  cases (getValue axis a).lt (getValue axis b) <;> simp

theorem isGreaterOrNaN_eq (axis : Axis) (a b : Point) :
    isGreaterOrNaN axis a b =
      ((getValue axis a).gt (getValue axis b) || (getValue axis a).isnan) := by
  unfold isGreaterOrNaN
  cases (getValue axis a).gt (getValue axis b) <;> simp

end UtilizeEyeInHandCalibration

namespace UtilizeEyeInHandCalibration

open Ieee Eigen Transform3D Examples

theorem ranges_eq_some (data : List Point) (r : Ranges) (h : ranges data = some r)
    (axis : Axis) :
    (∃ i, maxElement (isLesserOrNan axis) data = some (i, r.maxOn axis)) ∧
    (∃ i, maxElement (isGreaterOrNaN axis) data = some (i, r.minOn axis)) := by
  unfold ranges at h
  split at h
  · rename_i maxX minX maxY minY maxZ minZ h1 h2 h3 h4 h5 h6
    simp only [Option.some.injEq] at h
    subst h
    cases axis
    · exact ⟨⟨maxX.1, h1⟩, ⟨minX.1, h2⟩⟩
    · exact ⟨⟨maxY.1, h3⟩, ⟨minY.1, h4⟩⟩
    · exact ⟨⟨maxZ.1, h5⟩, ⟨minZ.1, h6⟩⟩
  · simp at h

theorem mem_numbersOn (axis : Axis) (data : List Point) (v : F32) :
    v ∈ numbersOn axis data ↔ ∃ q ∈ data, getValue axis q = v ∧ v.isnan = false := by
  unfold numbersOn
  simp only [List.mem_filter, List.mem_map, Bool.not_eq_true']
  constructor
  · rintro ⟨⟨q, hq, rfl⟩, hn⟩; exact ⟨q, hq, rfl, hn⟩
  · rintro ⟨q, hq, rfl, hn⟩; exact ⟨⟨q, hq, rfl⟩, hn⟩

/-- When some value is a number, the element selected is a number of the range
that no number of the range exceeds. -/
theorem selected_number {α : Type} (key : α → F32) (rel : F32 → F32 → Bool)
    (data : List α) (c : Nat × α) (h : Selected key rel data c)
    (hne : ∃ q ∈ data, (key q).isnan = false) :
    c.2 ∈ data ∧ (key c.2).isnan = false ∧
    ∀ q ∈ data, (key q).isnan = false → rel (key c.2) (key q) = false := by
  obtain ⟨hget, hcase⟩ := h
  refine ⟨List.getElem?_mem hget, ?_⟩
  rcases hcase with ⟨hall, _⟩ | ⟨hnum, hmax, _⟩
  · obtain ⟨q, hq, hqn⟩ := hne
    rw [hall q hq] at hqn
    exact absurd hqn (by simp)
  · exact ⟨hnum, hmax⟩

end UtilizeEyeInHandCalibration

/-! ## The rescaling to eight bits -/

namespace Ieee

theorem Flt.sub_self_fin (f : Format) (a : Int) :
    Flt.sub f (Flt.fin a) (Flt.fin a) = Flt.fin 0 := by
  simp only [Flt.sub, Flt.neg, Flt.add, add_neg_cancel]
  exact roundTo_zero f 1 Nat.one_pos

theorem Flt.mul_fin_zero (f : Format) (a : Int) :
    Flt.mul f (Flt.fin a) (Flt.fin 0) = Flt.fin 0 := by
  simp only [Flt.mul, mul_zero]
  exact roundTo_zero f unitsPerOne unitsPerOne_pos

theorem Flt.zero_div_fin (f : Format) (m : Int) (hm : m ≠ 0) :
    Flt.div f (Flt.fin 0) (Flt.fin m) = Flt.fin 0 := by
  simp only [Flt.div, hm, if_false, zero_mul]
  exact roundTo_zero f m.natAbs (Int.natAbs_pos.mpr hm)

theorem roundTo_nonneg_ne_ninf (f : Format) (n : Int) (d : Nat) (hn : 0 ≤ n) :
    roundTo f n d ≠ Flt.ninf := by
  unfold roundTo
  simp only [not_lt.mpr hn, if_false]
  split_ifs <;> simp

/-- The difference of two values of a format, the second above the first, is
an infinity or a positive value: it is never rounded to zero. -/
theorem Flt.sub_pos (f : Format) (hp : 1 ≤ f.prec) (a b : Int) (hab : a < b)
    (ha : Flt.IsValueOf f (Flt.fin a)) (hb : Flt.IsValueOf f (Flt.fin b)) :
    Flt.sub f (Flt.fin b) (Flt.fin a) = Flt.pinf ∨
    ∃ m : Int, 0 < m ∧ Flt.sub f (Flt.fin b) (Flt.fin a) = Flt.fin m := by
  have hda := dvd_of_isValueOf f a ha
  have hdb := dvd_of_isValueOf f b hb
  have hd : (2 : Int) ^ f.emin ∣ b + -a := Dvd.dvd.add hdb ((Int.dvd_neg).mpr hda)
  have hle : (2 : Int) ^ f.emin ≤ b + -a := Int.le_of_dvd (by omega) hd
  simp only [Flt.sub, Flt.neg, Flt.add]
  exact roundTo_pos f (b + -a) hp hle

end Ieee

namespace UtilizeEyeInHandCalibration

open Ieee Eigen Transform3D Examples

theorem val_255 : (255 : F32).val = Flt.fin (255 * (unitsPerOne : Int)) := by decide!

theorem round_255 : roundTo binary32 ((255 * unitsPerOne : Nat) : Int) 1 =
    Flt.fin (255 * (unitsPerOne : Int)) := by decide!

theorem toUnsigned_zero : Flt.toUnsigned 8 (Flt.fin 0) = some 0 := by decide!

theorem toUnsigned_255 : Flt.toUnsigned 8 (Flt.fin (255 * (unitsPerOne : Int))) = some 255 := by
  decide!

/-- The lower bound is mapped to 0. -/
theorem normalize_min (value : Nat) (mn mx : F32) (hmn : mn.IsValue) (hmx : mx.IsValue)
    (hlt : mn.lt mx = true) (hv : F32.ofSizeT value = mn) : normalize value mn mx = some 0 := by
  unfold normalize rescale F32.toUChar
  rw [hv, Num.div_val, Num.mul_val, Num.sub_val, Num.sub_val, val_255]
  have hnn : mn.val ≠ Flt.ninf := by
    rw [← hv, F32.ofSizeT_val]
    exact roundTo_nonneg_ne_ninf binary32 _ 1 (by positivity)
  unfold Num.lt at hlt
  unfold Num.IsValue at hmn hmx
  obtain ⟨c1, c2, c3, c4⟩ := Flt.lt_cases _ _ hlt
  cases hmnv : mn.val with
  | nan => exact absurd hmnv c1
  | ninf => exact absurd hmnv hnn
  | pinf => exact absurd hmnv c2
  | fin a =>
    rw [hmnv] at hlt hmn
    rw [Flt.sub_self_fin, Flt.mul_fin_zero]
    cases hmxv : mx.val with
    | nan => exact absurd hmxv c3
    | ninf => exact absurd hmxv c4
    | pinf =>
      simp only [Flt.sub, Flt.neg, Flt.add, Flt.div]
      exact toUnsigned_zero
    | fin b =>
      rw [hmxv] at hlt hmx
      have hab : a < b := by simpa [Flt.lt] using hlt
      rcases Flt.sub_pos binary32 (by decide) a b hab hmn hmx with h | ⟨m, hm, h⟩
      · rw [h]; simp only [Flt.div]; exact toUnsigned_zero
      · rw [h, Flt.zero_div_fin binary32 m (by omega)]; exact toUnsigned_zero

/-- The upper bound is mapped to 255 when the product `255 * (max - min)` is
computed without rounding error. -/
theorem normalize_max (value : Nat) (mn mx : F32) (hmn : mn.IsValue) (hmx : mx.IsValue)
    (hlt : mn.lt mx = true) (hv : F32.ofSizeT value = mx) (m : Int)
    (hd : (mx - mn).val = Flt.fin m)
    (hex : ((255 : F32) * (mx - mn)).val = Flt.fin (255 * m)) :
    normalize value mn mx = some 255 := by
  unfold normalize rescale F32.toUChar
  rw [hv, Num.div_val, hex, hd]
  have hm : 0 < m := by
    rw [Num.sub_val] at hd
    unfold Num.lt at hlt
    unfold Num.IsValue at hmn hmx
    obtain ⟨c1, c2, c3, c4⟩ := Flt.lt_cases _ _ hlt
    cases hmnv : mn.val with
    | nan => exact absurd hmnv c1
    | ninf => rw [hmnv] at hd; cases hmxv : mx.val <;> rw [hmxv] at hd <;>
        simp [Flt.sub, Flt.neg, Flt.add] at hd
    | pinf => exact absurd hmnv c2
    | fin a =>
      cases hmxv : mx.val with
      | nan => exact absurd hmxv c3
      | ninf => exact absurd hmxv c4
      | pinf => rw [hmxv, hmnv] at hd; simp [Flt.sub, Flt.neg, Flt.add] at hd
      | fin b =>
        rw [hmnv, hmxv] at hlt hd
        rw [hmnv] at hmn
        rw [hmxv] at hmx
        have hab : a < b := by simpa [Flt.lt] using hlt
        rcases Flt.sub_pos binary32 (by decide) a b hab hmn hmx with h | ⟨m', hm', h⟩
        · rw [h] at hd; simp at hd
        · rw [h] at hd
          simp only [Flt.fin.injEq] at hd
          omega
  have hne : m ≠ 0 := by omega
  have hsign : m.sign = 1 := Int.sign_eq_one_of_pos hm
  have hcast : ((m.natAbs : Nat) : Int) = m := Int.natAbs_of_nonneg hm.le
  simp only [Flt.div, hne, if_false, hsign, mul_one]
  have hnum : 255 * m * (unitsPerOne : Int) =
      ((255 * unitsPerOne : Nat) : Int) * ((m.natAbs : Nat) : Int) := by
    rw [hcast]; push_cast; ring
  rw [hnum, roundTo_mul_right binary32 (255 * unitsPerOne) m.natAbs (Int.natAbs_pos.mpr hne),
    round_255]
  exact toUnsigned_255

/-- C7 as stated fails: with `min = 0.99212646484375` and `max = 515` the
product `255 * (max - min)` is rounded down to 131072, the quotient is rounded
to `255 - 2^-16`, and the value `max` is mapped to 254. -/
theorem upper_bound_maps_to_254 :
    lowBound.lt highBound = true ∧ lowBound.IsValue ∧ highBound.IsValue ∧
    F32.ofSizeT 515 = highBound ∧
    (255 : F32) * (F32.ofSizeT 515 - lowBound) = Num.ofInt 131072 ∧
    rescale 515 lowBound highBound = Num.ofScaled 16711679 (-16) ∧
    normalize 515 lowBound highBound = some 254 := by
  decide!

/-- C7, amended. For two `float` values `min < max`, the normalisation step maps
a value equal to `min` to 0, and maps a value equal to `max` to 255 whenever
the difference `max - min` is finite and the product `255 * (max - min)` is
computed without rounding error. -/
theorem normalize_at_bounds (value : Nat) (mn mx : F32) (hmn : mn.IsValue)
    (hmx : mx.IsValue) (hlt : mn.lt mx = true) :
    (F32.ofSizeT value = mn → normalize value mn mx = some 0) ∧
    (F32.ofSizeT value = mx →
      (∃ m : Int, (mx - mn).val = Flt.fin m ∧
        ((255 : F32) * (mx - mn)).val = Flt.fin (255 * m)) →
      normalize value mn mx = some 255) :=
  ⟨fun hv => normalize_min value mn mx hmn hmx hlt hv,
   fun hv ⟨m, hd, hex⟩ => normalize_max value mn mx hmn hmx hlt hv m hd hex⟩

/-- The amended C7 at the bounds 3 and 515: 3 is mapped to 0 and 515 to 255. -/
theorem normalize_at_bounds_3_515 :
    (3 : F32).lt 515 = true ∧ normalize 3 3 515 = some 0 ∧ normalize 515 3 515 = some 255 :=
  have h := normalize_at_bounds 3 3 515 (by decide!) (by decide!) (by decide!)
  have h' := normalize_at_bounds 515 3 515 (by decide!) (by decide!) (by decide!)
  ⟨by decide!, h.1 (by decide!),
   h'.2 (by decide!) ⟨512 * (unitsPerOne : Int), by decide!, by decide!⟩⟩

end UtilizeEyeInHandCalibration

namespace Ieee

theorem Flt.div_zero (f : Format) (x : Flt) :
    Flt.div f x (Flt.fin 0) = Flt.nan ∨ Flt.div f x (Flt.fin 0) = Flt.pinf ∨
    Flt.div f x (Flt.fin 0) = Flt.ninf := by
  cases x with
  | nan => simp [Flt.div]
  | ninf => simp [Flt.div, Flt.signedInf]
  | pinf => simp [Flt.div, Flt.signedInf]
  | fin a =>
    by_cases ha : a = 0
    · simp [Flt.div, ha]
    · by_cases hn : a < 0 <;> simp [Flt.div, ha, Flt.signedInf, hn]

end Ieee

namespace UtilizeEyeInHandCalibration

open Ieee Eigen Transform3D Examples

/-- With equal finite bounds the divisor is zero: the rescaled value is NaN or an
infinity and its conversion to `unsigned char` is undefined. -/
theorem rescale_degenerate (value : Nat) (m : F32) (k : Int) (hm : m.val = Flt.fin k) :
    ((rescale value m m).val = Flt.nan ∨ (rescale value m m).val = Flt.pinf ∨
      (rescale value m m).val = Flt.ninf) ∧
    normalize value m m = none := by
  have hz : (m - m).val = Flt.fin 0 := by
    rw [Num.sub_val, hm]; exact Flt.sub_self_fin binary32 k
  have hr : (rescale value m m).val =
      Flt.div binary32 ((255 : F32) * (F32.ofSizeT value - m)).val (Flt.fin 0) := by
    unfold rescale
    rw [Num.div_val, hz]
  have hd := Flt.div_zero binary32 ((255 : F32) * (F32.ofSizeT value - m)).val
  rw [← hr] at hd
  refine ⟨hd, ?_⟩
  unfold normalize F32.toUChar
  rcases hd with h | h | h <;> rw [h] <;> rfl

/-- A cell with depth is undefined as soon as the range of one axis is
degenerate. -/
theorem normalizeCell_degenerate (transform : Matrix4 F64) (r : Ranges) (p : Point)
    (axis : Axis) (k : Int) (hz : p.z.isnan = false)
    (heq : getValue axis (r.minOn axis) = getValue axis (r.maxOn axis))
    (hfin : (getValue axis (r.minOn axis)).val = Flt.fin k) :
    normalizeCell transform (some r) p = none := by
  unfold normalizeCell
  simp only [hz, Bool.false_eq_true, if_false]
  split
  · rename_i XXX YYY ZZZ r' _ _ _ hr
    simp only [Option.some.injEq] at hr
    subst hr
    split
    · rename_i x y z hx hy hz'
      cases axis
      · simp only [getValue, Ranges.minOn, Ranges.maxOn] at heq hfin
        rw [← heq, (rescale_degenerate XXX _ k hfin).2] at hx
        exact absurd hx (by simp)
      · simp only [getValue, Ranges.minOn, Ranges.maxOn] at heq hfin
        rw [← heq, (rescale_degenerate YYY _ k hfin).2] at hy
        exact absurd hy (by simp)
      · simp only [getValue, Ranges.minOn, Ranges.maxOn] at heq hfin
        rw [← heq, (rescale_degenerate ZZZ _ k hfin).2] at hz'
        exact absurd hz' (by simp)
    · rfl
  · rfl

theorem process_eq_none_of_cell (colorMap : Nat → Vec3b) (transform : Matrix4 F64)
    (pc : PointCloud) (i j : Nat) (hi : i < pc.height) (hj : j < pc.width)
    (h : normalizeCell transform (ranges pc.data) (pc.cell i j) = none) :
    process colorMap transform pc = none := by
  unfold process normalizeLoops
  simp only
  split
  · rfl
  · rename_i pixels hseq
    have h1 := cell?_of_sequence _ pixels i j _ hseq (cell?_forEachCell pc _ i j hi hj)
    have h2 := sequence_eq_some _ pixels hseq
    have h3 := congrArg (fun g => Grid.cell? g i j) h2
    simp only [cell?_forEachCell pc _ i j hi hj] at h3
    rw [h] at h1 h3
    unfold Grid.cell? at h1 h3
    simp only [List.getElem?_map] at h3
    cases hrow : pixels[i]? with
    | none => rw [hrow] at h3; simp at h3
    | some row =>
      rw [hrow] at h1 h3
      simp only [Option.some_bind, Option.map_some', List.getElem?_map] at h1 h3
      rw [h1] at h3
      simp at h3

/-- C8, the code at a cell with depth: in the cloud with the points `(0, 0, 0)`
and `(1, 1, 1)` every range is from 0 to 1; with the camera-to-base transform of
the scenario the value rescaled for x at the second cell is 101, above the
maximum 1, the rescaled value is 25755, above 255, and its conversion to
`unsigned char` is undefined. -/
theorem rescaled_value_outside_range :
    ranges twoPoints.data =
      some ⟨pointAt 0 0 0, pointAt 1 1 1, pointAt 0 0 0, pointAt 1 1 1,
            pointAt 0 0 0, pointAt 1 1 1⟩ ∧
    (pointAt 1 1 1).z.isnan = false ∧
    (pointAt 0 0 0).x.lt (pointAt 1 1 1).x = true ∧
    (cameraToBase.mulVec (pointInCameraFrame (pointAt 1 1 1))).x.toSizeT = some 101 ∧
    (F32.ofSizeT 101).le (pointAt 1 1 1).x = false ∧
    rescale 101 (pointAt 0 0 0).x (pointAt 1 1 1).x = 25755 ∧
    normalize 101 (pointAt 0 0 0).x (pointAt 1 1 1).x = none ∧
    normalizeCell cameraToBase (ranges twoPoints.data) (pointAt 1 1 1) = none ∧
    process greyMap cameraToBase twoPoints = none := by
  decide!

/-- For every degenerate range: when the minimum and the maximum of an axis are
the same finite value, the rescaling divides by the zero difference, its result
is NaN or an infinity, its conversion to `unsigned char` is undefined, and so
are the loops over any cloud that has a cell with depth. -/
theorem degenerate_range_undefined :
    (∀ (value : Nat) (m : F32) (k : Int), m.val = Flt.fin k →
      ((rescale value m m).val = Flt.nan ∨ (rescale value m m).val = Flt.pinf ∨
        (rescale value m m).val = Flt.ninf) ∧
      normalize value m m = none) ∧
    (∀ (colorMap : Nat → Vec3b) (transform : Matrix4 F64) (pc : PointCloud) (r : Ranges)
      (axis : Axis) (k : Int) (i j : Nat),
      ranges pc.data = some r →
      getValue axis (r.minOn axis) = getValue axis (r.maxOn axis) →
      (getValue axis (r.minOn axis)).val = Flt.fin k →
      i < pc.height → j < pc.width → (pc.cell i j).z.isnan = false →
      process colorMap transform pc = none) := by
  refine ⟨rescale_degenerate, ?_⟩
  intro colorMap transform pc r axis k i j hr heq hfin hi hj hz
  apply process_eq_none_of_cell colorMap transform pc i j hi hj
  rw [hr]
  exact normalizeCell_degenerate transform r (pc.cell i j) axis k hz heq hfin

/-- C9, the code at a cloud with a single valid point: in the cloud with a cell
without coordinates and the point `(1, 1, 1)`, the minimum and the maximum of
every axis are that point, so `max - min` is zero. A run in which no library
call throws reports no error: with the identity in both files it divides 0 by
the zero difference for the valid cell and the quotient is NaN, with the files
of the scenario it divides 25500 by zero and the quotient is an infinity; the
conversion of the quotient to `unsigned char` is undefined, and so is the run. -/
theorem degenerate_range_is_not_an_error :
    ranges singleValid.data =
      some ⟨pointAt 1 1 1, pointAt 1 1 1, pointAt 1 1 1, pointAt 1 1 1,
            pointAt 1 1 1, pointAt 1 1 1⟩ ∧
    (pointAt 1 1 1).z.isnan = false ∧
    (pointAt 1 1 1).x - (pointAt 1 1 1).x = 0 ∧
    (cameraToBase.mulVec (pointInCameraFrame (pointAt 1 1 1))).x.toSizeT = some 101 ∧
    rescale 101 (pointAt 1 1 1).x (pointAt 1 1 1).x = ⟨Flt.pinf⟩ ∧
    normalize 101 (pointAt 1 1 1).x (pointAt 1 1 1).x = none ∧
    rescale 1 (pointAt 1 1 1).x (pointAt 1 1 1).x = ⟨Flt.nan⟩ ∧
    normalizeCell cameraToBase (ranges singleValid.data) (pointAt 1 1 1) = none ∧
    (identity.mulVec (pointInCameraFrame (pointAt 1 1 1))).x.toSizeT = some 1 ∧
    normalizeCell identity (ranges singleValid.data) (pointAt 1 1 1) = none ∧
    main (scenarioRun singleValid) = Outcome.undefined ∧
    main (identityRun singleValid) = Outcome.undefined ∧
    ¬ (∃ what : String, main (identityRun singleValid) = Outcome.error what) := by
  have hmain : main (identityRun singleValid) = Outcome.undefined := by decide!
  refine ⟨by decide!, by decide!, by decide!, by decide!, by decide!, by decide!, by decide!,
    by decide!, by decide!, by decide!, by decide!, hmain, ?_⟩
  rintro ⟨what, h⟩
  rw [hmain] at h
  exact absurd h (by simp)

end UtilizeEyeInHandCalibration

/-! ## The command prompt -/

namespace HandEyeCalibration

/-- C11. The function `enterCommand` answers `cmdAddPose` exactly for the lines
`p` and `P`, `cmdCalibrate` exactly for the lines `c` and `C`, and `cmdUnknown`
for every other line, among them the empty line, longer words that start with
one of the letters and the letters with a blank before or after. -/
theorem enterCommand_by_line (line : String) :
    (enterCommand line = CommandType.cmdAddPose ↔ line = "p" ∨ line = "P") ∧
    (enterCommand line = CommandType.cmdCalibrate ↔ line = "c" ∨ line = "C") ∧
    (enterCommand line = CommandType.cmdUnknown ↔
      line ≠ "p" ∧ line ≠ "P" ∧ line ≠ "c" ∧ line ≠ "C") ∧
    enterCommand "" = CommandType.cmdUnknown ∧
    enterCommand "pose" = CommandType.cmdUnknown ∧
    enterCommand "PP" = CommandType.cmdUnknown ∧
    enterCommand "calibrate" = CommandType.cmdUnknown ∧
    enterCommand " p" = CommandType.cmdUnknown ∧
    enterCommand "p " = CommandType.cmdUnknown ∧
    enterCommand " C" = CommandType.cmdUnknown ∧
    enterCommand "c\t" = CommandType.cmdUnknown := by
  have hpc : ("p" : String) ≠ "c" := by decide
  have hpC : ("p" : String) ≠ "C" := by decide
  have hPc : ("P" : String) ≠ "c" := by decide
  have hPC : ("P" : String) ≠ "C" := by decide
  refine ⟨?_, ?_, ?_, by decide, by decide, by decide, by decide, by decide, by decide,
    by decide, by decide⟩
  · unfold enterCommand
    by_cases h1 : line = "P" ∨ line = "p"
    · simp only [h1, if_true, true_iff]
      exact h1.symm
    · simp only [h1, if_false]
      have h1' : ¬ (line = "p" ∨ line = "P") := fun h => h1 h.symm
      by_cases h2 : line = "C" ∨ line = "c" <;> simp [h2, h1']
  · unfold enterCommand
    by_cases h1 : line = "P" ∨ line = "p"
    · simp only [h1, if_true]
      constructor
      · intro h; exact absurd h (by decide)
      · intro h
        rcases h1 with h1 | h1 <;> rcases h with h | h <;> rw [h1] at h
        · exact absurd h hPc
        · exact absurd h hPC
        · exact absurd h hpc
        · exact absurd h hpC
    · simp only [h1, if_false]
      by_cases h2 : line = "C" ∨ line = "c"
      · simp only [h2, if_true, true_iff]
        exact h2.symm
      · have h2' : ¬ (line = "c" ∨ line = "C") := fun h => h2 h.symm
        simp [h2, h2']
  · unfold enterCommand
    by_cases h1 : line = "P" ∨ line = "p"
    · simp only [h1, if_true]
      constructor
      · intro h; exact absurd h (by decide)
      · rintro ⟨hp, hP, _, _⟩
        rcases h1 with h1 | h1
        · exact absurd h1 hP
        · exact absurd h1 hp
    · simp only [h1, if_false]
      by_cases h2 : line = "C" ∨ line = "c"
      · simp only [h2, if_true]
        constructor
        · intro h; exact absurd h (by decide)
        · rintro ⟨_, _, hc, hC⟩
          rcases h2 with h2 | h2
          · exact absurd h2 hC
          · exact absurd h2 hc
      · simp only [h2, if_false, true_iff]
        refine ⟨fun h => h1 (Or.inr h), fun h => h1 (Or.inl h), fun h => h2 (Or.inr h),
          fun h => h2 (Or.inl h)⟩

/-- C11 at the four accepted lines and at a line with a carriage return left
at its end. -/
theorem enterCommand_of_letters :
    enterCommand "p" = CommandType.cmdAddPose ∧
    enterCommand "P" = CommandType.cmdAddPose ∧
    enterCommand "c" = CommandType.cmdCalibrate ∧
    enterCommand "C" = CommandType.cmdCalibrate ∧
    enterCommand "p\r" = CommandType.cmdUnknown :=
  ⟨(enterCommand_by_line "p").1.mpr (Or.inl rfl),
   (enterCommand_by_line "P").1.mpr (Or.inr rfl),
   (enterCommand_by_line "c").2.1.mpr (Or.inl rfl),
   (enterCommand_by_line "C").2.1.mpr (Or.inr rfl),
   (enterCommand_by_line "p\r").2.2.1.mpr ⟨by decide, by decide, by decide, by decide⟩⟩

end HandEyeCalibration

/-! ## Which element `std::max_element` returns -/

namespace Ieee

theorem Flt.lt_eq_false_of_le (a b : Flt) (h : Flt.le a b = true) : Flt.lt b a = false := by
  cases a <;> cases b <;> simp_all [Flt.lt, Flt.le]

theorem Flt.le_eq_false_of_lt (a b : Flt) (h : Flt.lt a b = true) : Flt.le b a = false := by
  cases a <;> cases b <;> simp_all [Flt.lt, Flt.le]

end Ieee

namespace UtilizeEyeInHandCalibration

open Ieee Eigen Transform3D Examples

theorem maxElement_isSome {α : Type} (comp : α → α → Bool) (data : List α) (hne : data ≠ []) :
    ∃ c, maxElement comp data = some c := by
  cases data with
  | nil => exact absurd rfl hne
  | cons a rest => exact ⟨_, rfl⟩

/-- From the selection property of the loop to the wording of the claim, for any
notion `Extreme` that agrees with "`rel` holds towards no number of the
sequence". -/
theorem firstExtremeOrLast_of_selected (axis : Axis) (rel : F32 → F32 → Bool)
    (Extreme : Point → Prop) (data : List Point) (c : Nat × Point)
    (hext : ∀ p, Extreme p ↔ ((getValue axis p).isnan = false ∧
      ∀ q ∈ data, (getValue axis q).isnan = false →
        rel (getValue axis p) (getValue axis q) = false))
    (h : Selected (getValue axis) rel data c) :
    FirstExtremeOrLast axis Extreme data c.1 c.2 := by
  obtain ⟨hget, hcase⟩ := h
  have hmem : c.2 ∈ data := List.getElem?_mem hget
  refine ⟨hget, ?_, ?_, ?_⟩
  · rintro ⟨q0, hq0, hq0n⟩
    rcases hcase with ⟨hall, _⟩ | ⟨hnum, hmax, hfirst⟩
    · rw [hall q0 hq0] at hq0n; exact absurd hq0n (by simp)
    · refine ⟨(hext c.2).mpr ⟨hnum, hmax⟩, ?_⟩
      intro j q hj hjq hq
      obtain ⟨hqn, hqmax⟩ := (hext q).mp hq
      have h1 := hfirst j q hj hjq hqn
      rw [hqmax c.2 hmem hnum] at h1
      exact absurd h1 (by simp)
  · intro hall
    rcases hcase with ⟨_, hlast⟩ | ⟨hnum, _, _⟩
    · exact hlast
    · rw [hall c.2 hmem] at hnum; exact absurd hnum (by simp)
  · constructor
    · intro hnan
      rcases hcase with ⟨hall, _⟩ | ⟨hnum, _, _⟩
      · exact hall
      · rw [hnan] at hnum; exact absurd hnum (by simp)
    · intro hall
      exact hall c.2 hmem

theorem isGreatestOn_iff (axis : Axis) (data : List Point) (p : Point) :
    IsGreatestOn axis data p ↔ ((getValue axis p).isnan = false ∧
      ∀ q ∈ data, (getValue axis q).isnan = false →
        (getValue axis p).lt (getValue axis q) = false) := by
  unfold IsGreatestOn
  constructor
  · rintro ⟨hp, h⟩
    exact ⟨hp, fun q hq hqn => Flt.lt_eq_false_of_le _ _ (h q hq hqn)⟩
  · rintro ⟨hp, h⟩
    exact ⟨hp, fun q hq hqn => Flt.le_of_not_lt _ _ hqn hp (h q hq hqn)⟩

theorem isLeastOn_iff (axis : Axis) (data : List Point) (p : Point) :
    IsLeastOn axis data p ↔ ((getValue axis p).isnan = false ∧
      ∀ q ∈ data, (getValue axis q).isnan = false →
        (getValue axis p).gt (getValue axis q) = false) := by
  unfold IsLeastOn
  constructor
  · rintro ⟨hp, h⟩
    exact ⟨hp, fun q hq hqn => Flt.lt_eq_false_of_le _ _ (h q hq hqn)⟩
  · rintro ⟨hp, h⟩
    exact ⟨hp, fun q hq hqn => Flt.le_of_not_lt _ _ hp hqn (h q hq hqn)⟩

/-- C12. For every non-empty sequence of points and every axis,
`std::max_element` with the comparator `isLesserOrNan` returns an element of the
sequence which is, when some point has a value on the axis that is not NaN, the
first point whose value is not NaN and is greater than or equal to every value
that is not NaN, and, when every value is NaN, the last point; with
`isGreaterOrNaN` the same holds with "less than or equal to". In both cases the
value of the returned point is NaN exactly when every value on the axis is. -/
theorem max_element_returns_first_extreme_or_last (axis : Axis) (data : List Point)
    (hne : data ≠ []) :
    (∃ (i : Nat) (p : Point), maxElement (isLesserOrNan axis) data = some (i, p) ∧
      FirstExtremeOrLast axis (IsGreatestOn axis data) data i p) ∧
    (∃ (i : Nat) (p : Point), maxElement (isGreaterOrNaN axis) data = some (i, p) ∧
      FirstExtremeOrLast axis (IsLeastOn axis data) data i p) := by
  constructor
  · obtain ⟨c, hc⟩ := maxElement_isSome (isLesserOrNan axis) data hne
    have hs := selected_maxElement (getValue axis) (fun a b => a.lt b) strictUpToNan_lt
      (isLesserOrNan axis) (isLesserOrNan_eq axis) data c hc
    exact ⟨c.1, c.2, hc,
      firstExtremeOrLast_of_selected axis _ _ data c (isGreatestOn_iff axis data) hs⟩
  · obtain ⟨c, hc⟩ := maxElement_isSome (isGreaterOrNaN axis) data hne
    have hs := selected_maxElement (getValue axis) (fun a b => a.gt b) strictUpToNan_gt
      (isGreaterOrNaN axis) (isGreaterOrNaN_eq axis) data c hc
    exact ⟨c.1, c.2, hc,
      firstExtremeOrLast_of_selected axis _ _ data c (isLeastOn_iff axis data) hs⟩

/-- C12 on the points `(2, 0, 1)`, `(NaN, NaN, NaN)`, `(7, 0, 1)`, `(7, 0, 5)`,
`(3, NaN, 9)`: on x the maximum is the first of the two points with x = 7 and
the minimum the first point; on a sequence of two points without any number
both selections return the second point. -/
theorem max_element_of_five_points :
    fivePoints ≠ [] ∧
    maxElement (isLesserOrNan Axis.X) fivePoints = some (2, pointAt 7 0 1) ∧
    maxElement (isGreaterOrNaN Axis.X) fivePoints = some (0, pointAt 2 0 1) ∧
    maxElement (isLesserOrNan Axis.X) [nanPoint 1, nanPoint 2] = some (1, nanPoint 2) ∧
    maxElement (isGreaterOrNaN Axis.X) [nanPoint 1, nanPoint 2] = some (1, nanPoint 2) ∧
    ((∃ (i : Nat) (p : Point), maxElement (isLesserOrNan Axis.X) fivePoints = some (i, p) ∧
        FirstExtremeOrLast Axis.X (IsGreatestOn Axis.X fivePoints) fivePoints i p) ∧
     (∃ (i : Nat) (p : Point), maxElement (isGreaterOrNaN Axis.X) fivePoints = some (i, p) ∧
        FirstExtremeOrLast Axis.X (IsLeastOn Axis.X fivePoints) fivePoints i p)) :=
  ⟨by decide!, by decide!, by decide!, by decide!, by decide!,
   max_element_returns_first_extreme_or_last Axis.X fivePoints (by decide!)⟩

end UtilizeEyeInHandCalibration
